import Mathlib

/-!
Verification of the 96-bit decimal arithmetic core
(`src/classlibnative/bcltype/decimal_calc.cpp`, `decimal.cpp`,
`decimal_calc.inl`) against its natural-language specification.

The C code is shallowly embedded: machine integers become `Nat` with
explicit `% 2^32` / `% 2^64` wrapping at every store into a fixed-width
slot, signed quantities (`iScale`) become `Int`, the unbounded `for(;;)`
loops become fuel-indexed recursion (`none` on fuel exhaustion, which
real executions never reach), and error returns (`DISP_E_OVERFLOW`,
`DISP_E_DIVBYZERO`) become an `Except` error type.  The model follows the
64-bit (`_TARGET_64BIT` / `HAS_DIVMOD128BY64`) configuration of the
source, which is the configuration the fork optimizes.
-/

/-- 2^32, the wrap modulus of a `uint32_t` slot. -/
def W32 : Nat := 4294967296

/-- 2^64, the wrap modulus of a `uint64_t` slot. -/
def W64 : Nat := 18446744073709551616

/-- 2^96, the size bound of a decimal mantissa. -/
def W96 : Nat := 79228162514264337593543950336

/-- `low32` of a 64-bit value (decimal_calc.inl). -/
def low32 (x : Nat) : Nat := x % W32

/-- `hi32` of a 64-bit value (decimal_calc.inl). -/
def hi32 (x : Nat) : Nat := x / W32 % W32

/-- `AddCarry64` (decimal_calc.inl): 64-bit add with carry in/out.
Returns (wrapped sum, carry-out). -/
def AddCarry64 (c a b : Nat) : Nat × Nat :=
  ((c + a + b) % W64, (c + a + b) / W64)

/-- `AddCarry32` (decimal_calc.inl): 32-bit add with carry in/out. -/
def AddCarry32 (c a b : Nat) : Nat × Nat :=
  ((c + a + b) % W32, (c + a + b) / W32)

/-- `SubBorrow64` (decimal_calc.inl): 64-bit subtract with borrow in/out.
Returns (wrapped difference, borrow-out); faithful for `a b < 2^64`, `c ≤ 1`. -/
def SubBorrow64 (c a b : Nat) : Nat × Nat :=
  ((W64 + a - (b + c)) % W64, if a < b + c then 1 else 0)

/-- `SubBorrow32` (decimal_calc.inl): 32-bit subtract with borrow in/out. -/
def SubBorrow32 (c a b : Nat) : Nat × Nat :=
  ((W32 + a - (b + c)) % W32, if a < b + c then 1 else 0)

/-- `Mul32By32` (decimal_calc.inl): 32×32→64 multiply. -/
def Mul32By32 (a b : Nat) : Nat := a * b

/-- `Mul64By32` (decimal_calc.inl): 64×32 multiply; returns
(low 64 bits, high 32 bits). -/
def Mul64By32 (a b : Nat) : Nat × Nat :=
  (a * b % W64, a * b / W64 % W32)

/-- `Mul64By64` (decimal_calc.inl, `_umul128`): 64×64 multiply; returns
(low 64 bits, high 64 bits). -/
def Mul64By64 (a b : Nat) : Nat × Nat :=
  (a * b % W64, a * b / W64 % W64)

/-- `DivMod32By32` (decimal_calc.inl): 32-bit divide returning
(quotient, remainder). -/
def DivMod32By32 (n den : Nat) : Nat × Nat := (n / den, n % den)

/-- `DivMod64By64` (decimal_calc.inl): 64-bit divide returning
(quotient, remainder). -/
def DivMod64By64 (n den : Nat) : Nat × Nat := (n / den, n % den)

/-- `DivMod64By32` (decimal_calc.inl): divides the pair `(hi,lo)` by a
32-bit divisor; quotient is stored into a 32-bit slot (callers keep
`hi < den` so no truncation occurs). Returns (quotient, remainder). -/
def DivMod64By32 (lo hi den : Nat) : Nat × Nat :=
  ((hi * W32 + lo) / den % W32, (hi * W32 + lo) % den)

/-- `DivMod128By64` (decimal_calc.inl): divides `(hi,lo)` by a 64-bit
divisor; callers keep `hi < den`. Returns (quotient, remainder). -/
def DivMod128By64 (lo hi den : Nat) : Nat × Nat :=
  ((hi * W64 + lo) / den % W64, (hi * W64 + lo) % den)

/-- `BitScanMsb32` / `BitScanMsb64` (decimal_calc.inl): index of the most
significant set bit (callers guarantee a nonzero argument). -/
def BitScanMsb (x : Nat) : Nat := Nat.log2 x

/-- `ShiftLeft128` (decimal_calc.inl intrinsic): the high 64 bits of a
128-bit left shift by `0 ≤ shift ≤ 63`. -/
def ShiftLeft128 (lo hi shift : Nat) : Nat :=
  (hi * W64 + lo) * 2 ^ shift / W64 % W64

/-- The `DECIMAL` value (decimal.h layout): 96-bit mantissa split into
`lo64` (low 64 bits) and `hi32` (high 32 bits), the scale byte and the
sign byte (`DECIMAL_NEG = 0x80`).  The 16 reserved `wReserved` bits are
not computed by the arithmetic core: every exported wrapper in
`decimal.cpp` stores 0 there after the call (see `flagsWord`). -/
structure DECIMAL where
  lo64 : Nat
  hi32 : Nat
  scale : Nat
  sign : Nat
deriving Repr, DecidableEq

/-- The 96-bit mantissa of a decimal. -/
def mantissa (d : DECIMAL) : Nat := d.hi32 * W64 + d.lo64

/-- The published 32-bit flags word of a result: callers in `decimal.cpp`
zero `wReserved` (`d->wReserved = 0`), so flags = sign<<24 | scale<<16. -/
def flagsWord (d : DECIMAL) : Nat := d.sign * 16777216 + d.scale * 65536

/-- Well-formed decimal value: mantissa limbs in range, scale in [0,28],
sign byte either 0 or `DECIMAL_NEG` (0x80 = 128). -/
def wfDec (d : DECIMAL) : Prop :=
  d.lo64 < W64 ∧ d.hi32 < W32 ∧ d.scale ≤ 28 ∧ (d.sign = 0 ∨ d.sign = 128)

instance : DecidablePred wfDec := fun d => by unfold wfDec; infer_instance

/-- Error results of the core operations. `fuelOut` is the artifact of
fuel-indexed loop modelling and corresponds to no C behaviour. -/
inductive DErr where
  | ovfl
  | divZero
  | fuelOut
deriving Repr, DecidableEq

/-- `rgulPower10_64` (decimal_calc.cpp): 10^i. -/
def pow10 (i : Nat) : Nat := 10 ^ i

/-- `(uint8_t)` cast of a signed scale (two's complement byte). -/
def byteOfInt (i : Int) : Nat := (i % 256).toNat

/-- The up-to-192-bit scratch buffer `rgullRes` / `rgulProd` / `rgullNum`:
three little-endian 64-bit limbs. -/
structure Buf where
  b0 : Nat
  b1 : Nat
  b2 : Nat
deriving Repr, DecidableEq

/-- Read limb `i` of the buffer. -/
def bufGet (buf : Buf) (i : Nat) : Nat :=
  match i with
  | 0 => buf.b0
  | 1 => buf.b1
  | _ => buf.b2

/-- Write limb `i` of the buffer. -/
def bufSet (buf : Buf) (i : Nat) (v : Nat) : Buf :=
  match i with
  | 0 => ⟨v, buf.b1, buf.b2⟩
  | 1 => ⟨buf.b0, v, buf.b2⟩
  | _ => ⟨buf.b0, buf.b1, v⟩

/-- The 192-bit value held by the buffer. -/
def bufVal (buf : Buf) : Nat := buf.b0 + buf.b1 * W64 + buf.b2 * (W64 * W64)

/-- One limb step of `ReduceScale`'s trailing `while (iCur >= 0)` loop:
divide the high then the low 32-bit half by `den`, chaining remainders
(`DivMod64By32InPlace` twice). Returns (new limb, outgoing remainder). -/
def divLimb (den rem limb : Nat) : Nat × Nat :=
  let hq := DivMod64By32 (hi32 limb) rem den
  let lq := DivMod64By32 (low32 limb) hq.2 den
  (hq.1 * W32 + lq.1, lq.2)

/-- `ReduceScale`'s `while (iCur >= 0)` loop walking limbs `iCur` down
to 0. -/
def reduceWalk (den : Nat) : Nat → Nat → Buf → Buf × Nat
  | 0, rem, buf =>
    let r := divLimb den rem (bufGet buf 0)
    (bufSet buf 0 r.1, r.2)
  | i + 1, rem, buf =>
    let r := divLimb den rem (bufGet buf (i + 1))
    reduceWalk den i r.2 (bufSet buf (i + 1) r.1)

/-- `ReduceScale` (decimal_calc.cpp 108–152): divide the buffer in place
by `10^min(iNewScale, 9)`.  Returns
(new buffer, new `iHiRes`, divisor used, remainder, reduced `iNewScale`). -/
def ReduceScale (buf : Buf) (iHiRes : Nat) (iNewScale : Int) :
    Buf × Nat × Nat × Nat × Int :=
  let den := if iNewScale < 9 then pow10 iNewScale.toNat else pow10 9
  let iNew := iNewScale - 9
  let top := bufGet buf iHiRes
  if hi32 top < den then
    if hi32 top = 0 ∧ low32 top < den then
      let rem := low32 top
      let buf := bufSet buf iHiRes 0
      let iHi := iHiRes - 1
      match iHiRes with
      | 0 => (buf, 0, den, rem, iNew)
      | i + 1 =>
        let w := reduceWalk den i rem buf
        (w.1, iHi, den, w.2, iNew)
    else
      let d := DivMod64By32 (low32 top) (hi32 top) den
      let buf := bufSet buf iHiRes d.1
      match iHiRes with
      | 0 => (buf, 0, den, d.2, iNew)
      | i + 1 =>
        let w := reduceWalk den i d.2 buf
        (w.1, iHiRes, den, w.2, iNew)
  else
    let w := reduceWalk den iHiRes 0 buf
    (w.1, iHiRes, den, w.2, iNew)

/-- Result of `ScaleResult`: `-1` (overflow) or the final scale with the
scaled buffer. -/
inductive ScaleOut where
  | ovfl
  | ok (iScale : Int) (buf : Buf)
deriving Repr, DecidableEq

/-- `Add96By32` on a `uint64_t` buffer (decimal_calc.cpp 81–85): add to
the low 96 bits, returning the carry out of bit 95. -/
def add96Buf (buf : Buf) (v : Nat) : Buf × Nat :=
  let a := AddCarry64 0 buf.b0 v
  let b := AddCarry32 a.2 (low32 buf.b1) 0
  (⟨a.1, hi32 buf.b1 * W32 + b.1, buf.b2⟩, b.2)

/-- The common exit of `ScaleResult`'s loop (decimal_calc.cpp 282–288):
fail with overflow when the scale went negative. -/
def scaleResultFinish (buf : Buf) (iScale : Int) : Option ScaleOut :=
  if iScale < 0 then some ScaleOut.ovfl else some (ScaleOut.ok iScale buf)

/-- The final rounding step of `ScaleResult` (decimal_calc.cpp 256–288),
parameterized by the loop continuation `loopk` used when the round-up
carries past 96 bits. -/
def scaleResultRoundGo
    (loopk : Buf → Nat → Nat → Nat → Int → Int → Option ScaleOut)
    (buf : Buf) (iHiRes sticky den rem : Nat) (iScale : Int) :
    Option ScaleOut :=
  let half := den / 2
  if rem > half ∨ (rem = half ∧ (buf.b0 % 2 = 1 ∨ sticky ≠ 0)) then
    let a := add96Buf buf 1
    if a.2 ≠ 0 then
      loopk ⟨a.1.b0, low32 a.1.b1 + W32, a.1.b2⟩ iHiRes 0 0 1 (iScale - 1)
    else scaleResultFinish a.1 iScale
  else scaleResultFinish buf iScale

/-- The `for(;;)` loop of `ScaleResult` (decimal_calc.cpp 235–289); one
recursion step per `continue`. -/
def scaleResultLoop :
    Nat → Buf → Nat → Nat → Nat → Int → Int → Option ScaleOut
  | 0, _, _, _, _, _, _ => none
  | fuel + 1, buf, iHiRes, sticky, rem, iNewScale, iScale =>
    let sticky := sticky ||| rem
    match ReduceScale buf iHiRes iNewScale with
    | (buf, iHiRes, den, rem, iNew) =>
      if 0 < iNew then scaleResultLoop fuel buf iHiRes sticky rem iNew iScale
      else if 1 < iHiRes ∨ hi32 buf.b1 ≠ 0 then
        scaleResultLoop fuel buf iHiRes sticky rem 1 (iScale - 1)
      else scaleResultRoundGo (scaleResultLoop fuel) buf iHiRes sticky den rem iScale

/-- The final rounding step of `ScaleResult` with the loop as its
continuation (the exact code path of decimal_calc.cpp 256–288). -/
def scaleResultRound (fuel : Nat) (buf : Buf) (iHiRes sticky den rem : Nat)
    (iScale : Int) : Option ScaleOut :=
  scaleResultRoundGo (scaleResultLoop fuel) buf iHiRes sticky den rem iScale

/-- Entry into `ScaleResult`'s scaling loop after the estimate has been
raised to at least `iScale - 28` (decimal_calc.cpp 222–291). -/
def scaleResultEnter (buf : Buf) (iHiRes : Nat) (iScale est : Int) :
    Option ScaleOut :=
  if est ≠ 0 then scaleResultLoop 64 buf iHiRes 0 0 est (iScale - est)
  else some (ScaleOut.ok iScale buf)

/-- `ScaleResult` (decimal_calc.cpp 172–292): bring an up-to-192-bit
magnitude into 96 bits, reducing the scale as little as necessary;
`ovfl` models the `-1` return. -/
def ScaleResult (buf : Buf) (iHiRes : Nat) (iScale : Int) : Option ScaleOut :=
  let bitPos : Int := ((iHiRes * 64 + BitScanMsb (bufGet buf iHiRes) : Nat) : Int) - 96
  if 0 ≤ bitPos then
    let est := bitPos * 77 / 256 + 1
    if est > iScale then some ScaleOut.ovfl
    else scaleResultEnter buf iHiRes iScale (max est (iScale - 28))
  else scaleResultEnter buf iHiRes iScale (max 0 (iScale - 28))

/-- `DECIMAL_SETZERO` (decimal_calc.cpp 37–40): the all-zero decimal. -/
def zeroDec : DECIMAL := ⟨0, 0, 0, 0⟩

/-- Common tail of both `DecimalMul` product paths (decimal_calc.cpp
344–354 and 411–421): run `ScaleResult`, then assemble the result with
sign = XOR of operand signs.  `ScaleResult` yields `-1` only through
`ovfl` (its non-overflow scales lie in `[0,28]`), so comparing the
`uint8_t` cast with 255 is the `ovfl` case. -/
def mulScaleFinish (L R : DECIMAL) (prod : Buf) (iHi : Nat) (iScale : Int) :
    Except DErr DECIMAL :=
  match ScaleResult prod iHi iScale with
  | none => .error .fuelOut
  | some ScaleOut.ovfl => .error .ovfl
  | some (ScaleOut.ok s buf) =>
    .ok ⟨buf.b0, low32 buf.b1, byteOfInt s, L.sign ^^^ R.sign⟩

/-- `DecimalMul` (decimal_calc.cpp 300–423). -/
def DecimalMul (L R : DECIMAL) : Except DErr DECIMAL :=
  let iScale : Int := (L.scale : Int) + R.scale
  if L.hi32 ||| R.hi32 = 0 then
    let m := Mul64By64 L.lo64 R.lo64
    if m.2 = 0 then
      if iScale > 28 then
        let iScale2 := iScale - 28
        if iScale2 > 19 then .ok zeroDec
        else
          let pwr := pow10 iScale2.toNat
          let dm := DivMod64By64 m.1 pwr
          let half := pwr / 2
          let lo := if dm.2 > half ∨ (dm.2 = half ∧ dm.1 % 2 = 1)
                    then dm.1 + 1 else dm.1
          .ok ⟨lo, 0, byteOfInt 28, L.sign ^^^ R.sign⟩
      else .ok ⟨m.1, 0, byteOfInt iScale, L.sign ^^^ R.sign⟩
    else mulScaleFinish L R ⟨m.1, m.2, 0⟩ 1 iScale
  else
    let p0 := Mul64By64 L.lo64 R.lo64
    let p2a := Mul32By32 L.hi32 R.hi32
    let m1 := Mul64By32 L.lo64 R.hi32
    let s1 := AddCarry64 0 m1.1 p0.2
    let p2b := AddCarry64 s1.2 m1.2 p2a
    let m2 := Mul64By32 R.lo64 L.hi32
    let s2 := AddCarry64 0 m2.1 s1.1
    let p2c := AddCarry64 s2.2 m2.2 p2b.1
    let prod : Buf := ⟨p0.1, s2.1, p2c.1⟩
    if prod.b2 ≠ 0 then mulScaleFinish L R prod 2 iScale
    else if prod.b1 ≠ 0 then mulScaleFinish L R prod 1 iScale
    else if prod.b0 ≠ 0 then mulScaleFinish L R prod 0 iScale
    else .ok zeroDec

/-- The `SignFlip` block of `DecimalAddSub` (decimal_calc.cpp 455–460):
negate the 96-bit result (two's complement) and toggle the sign bit. -/
def signFlip (d : DECIMAL) : DECIMAL :=
  let lo := (W64 - d.lo64 % W64) % W64
  let hi := W32 - 1 - d.hi32 % W32
  let hi := if lo = 0 then (hi + 1) % W32 else hi
  ⟨lo, hi, d.scale, d.sign ^^^ 128⟩

/-- The `AlignedAdd` block of `DecimalAddSub` (decimal_calc.cpp 443–490):
add or subtract two 96-bit operands of equal scale; on an addition carry,
divide by ten (rounding half to even) and drop one scale step. -/
def addAligned (lLo lHi rLo rHi sign scale bSign : Nat) :
    Except DErr DECIMAL :=
  if bSign ≠ 0 then
    let s1 := SubBorrow64 0 lLo rLo
    let s2 := SubBorrow32 s1.2 lHi rHi
    let res : DECIMAL := ⟨s1.1, s2.1, scale, sign⟩
    if s2.2 ≠ 0 then .ok (signFlip res) else .ok res
  else
    let a1 := AddCarry64 0 lLo rLo
    let a2 := AddCarry32 a1.2 lHi rHi
    if a2.2 ≠ 0 then
      if scale = 0 then .error .ovfl
      else
        let scale := scale - 1
        let dh := DivMod64By32 a2.1 1 10
        let dm := DivMod64By32 (hi32 a1.1) dh.2 10
        let dl := DivMod64By32 (low32 a1.1) dm.2 10
        if dl.2 ≥ 5 ∧ (dl.2 > 5 ∨ dl.1 % 2 = 1) then
          let a := AddCarry64 0 (dm.1 * W32 + dl.1) 1
          let b := AddCarry32 a.2 dh.1 0
          .ok ⟨a.1, b.1, scale, sign⟩
        else .ok ⟨dm.1 * W32 + dl.1, dh.1, scale, sign⟩
    else .ok ⟨a1.1, a2.1, scale, sign⟩

/-- Tail of `DecimalAddSub`'s unequal-scale path (decimal_calc.cpp
677–688): normalize an oversized sum through `ScaleResult` when it does
not fit in 96 bits. -/
def bigFinish (n0 n1 n2 : Nat) (iHiProd resScale resSign : Nat) :
    Except DErr DECIMAL :=
  if 1 < iHiProd ∨ (iHiProd = 1 ∧ ¬ n1 < W32) then
    match ScaleResult ⟨n0, n1, n2⟩ iHiProd resScale with
    | none => .error .fuelOut
    | some ScaleOut.ovfl => .error .ovfl
    | some (ScaleOut.ok s buf) =>
      .ok ⟨buf.b0, low32 buf.b1, byteOfInt s, resSign⟩
  else .ok ⟨n0, low32 n1, resScale, resSign⟩

/-- The add/subtract of the scaled 192-bit operand against the 96-bit
operand (decimal_calc.cpp 620–688). -/
def bigAdd (n0 n1 n2 : Nat) (iHiProd : Nat) (Q : DECIMAL)
    (resSign resScale bSign : Nat) : Except DErr DECIMAL :=
  if bSign ≠ 0 then
    let s1 := SubBorrow64 0 n0 Q.lo64
    let s2 := SubBorrow64 s1.2 n1 Q.hi32
    if s2.2 ≠ 0 then
      if iHiProd ≤ 1 then .ok (signFlip ⟨s1.1, low32 s2.1, resScale, resSign⟩)
      else
        let n2 := (n2 + W64 - 1) % W64
        let iHi := if n2 = 0 then 1 else 2
        bigFinish s1.1 s2.1 n2 iHi resScale resSign
    else bigFinish s1.1 s2.1 n2 iHiProd resScale resSign
  else
    let a1 := AddCarry64 0 n0 Q.lo64
    let a2 := AddCarry64 a1.2 n1 Q.hi32
    if a2.2 ≠ 0 then
      if iHiProd < 2 then bigFinish a1.1 a2.1 1 2 resScale resSign
      else bigFinish a1.1 a2.1 ((n2 + 1) % W64) iHiProd resScale resSign
    else bigFinish a1.1 a2.1 n2 iHiProd resScale resSign

/-- The scaled-up operand state of the unequal-scale path:
`rgullNum[0..2]` and `iHiProd`. -/
structure BigSt where
  n0 : Nat
  n1 : Nat
  n2 : Nat
  ihi : Nat
deriving Repr, DecidableEq

/-- One iteration of the multiply-by-up-to-`10^19` scaling loop
(decimal_calc.cpp 589–612).  The source's write of `rgullNum[3]` (which
`__analysis_assume(iHiProd <= 2)` marks unreachable: scaling by at most
`10^28` keeps the value under 190 bits) is dropped. -/
def bigScaleStep (pwr : Nat) (st : BigSt) : BigSt :=
  let m0 := Mul64By64 pwr st.n0
  match st.ihi with
  | 0 =>
    if m0.2 ≠ 0 then ⟨m0.1, (AddCarry64 0 m0.2 0).1, st.n2, 1⟩
    else ⟨m0.1, st.n1, st.n2, 0⟩
  | 1 =>
    let p1 := Mul64By64 pwr st.n1
    let a1 := AddCarry64 0 m0.2 p1.1
    if p1.2 ||| a1.2 ≠ 0 then ⟨m0.1, a1.1, (AddCarry64 a1.2 p1.2 0).1, 2⟩
    else ⟨m0.1, a1.1, st.n2, 1⟩
  | _ =>
    let p1 := Mul64By64 pwr st.n1
    let a1 := AddCarry64 0 m0.2 p1.1
    let p2 := Mul64By64 pwr st.n2
    let a2 := AddCarry64 a1.2 p1.2 p2.1
    ⟨m0.1, a1.1, a2.1, 2⟩

/-- The `for (; iScale > 0; iScale -= POWER10_MAX64)` scaling loop
(decimal_calc.cpp 589–612); at most two iterations are reachable
(`iScale ≤ 28`), fuel 8 is ample. -/
def bigScaleLoop : Nat → BigSt → Int → BigSt
  | 0, st, _ => st
  | fuel + 1, st, iScale =>
    if 0 < iScale then
      let pwr := if 19 ≤ iScale then pow10 19 else pow10 iScale.toNat
      bigScaleLoop fuel (bigScaleStep pwr st) (iScale - 19)
    else st

/-- The unequal-scale continuation of `DecimalAddSub` after operand
normalization (decimal_calc.cpp 515–688): `P` is the operand to be
multiplied by `10^diff`, `Q` the other. -/
def unequalCont (P Q : DECIMAL) (diff : Nat) (resSign resScale bSign : Nat) :
    Except DErr DECIMAL :=
  if diff ≤ 19 then
    let pwr := pow10 diff
    let m0 := Mul64By64 P.lo64 pwr
    let m1 := Mul64By64 P.hi32 pwr
    let a1 := AddCarry64 0 m1.1 m0.2
    let a2 := AddCarry64 a1.2 m1.2 0
    if a2.1 ≠ 0 then bigAdd m0.1 a1.1 a2.1 2 Q resSign resScale bSign
    else if a1.1 < W32 then
      addAligned m0.1 (low32 a1.1) Q.lo64 Q.hi32 resSign resScale bSign
    else bigAdd m0.1 a1.1 a2.1 1 Q resSign resScale bSign
  else
    if P.hi32 = 0 ∧ P.lo64 = 0 then
      .ok ⟨Q.lo64, Q.hi32, resScale, resSign ^^^ bSign⟩
    else
      let ihi0 := if P.hi32 = 0 then 0 else 1
      let st := bigScaleLoop 8 ⟨P.lo64, P.hi32, 0, ihi0⟩ diff
      bigAdd st.n0 st.n1 st.n2 st.ihi Q resSign resScale bSign

/-- `DecimalAddSub` (decimal_calc.cpp 430–692): add (`bSign0 = 0`) or
subtract (`bSign0 = 0x80`) two decimals. -/
def DecimalAddSub (L R : DECIMAL) (bSign0 : Nat) : Except DErr DECIMAL :=
  let bSign := bSign0 ^^^ ((R.sign ^^^ L.sign) &&& 128)
  if R.scale = L.scale then
    addAligned L.lo64 L.hi32 R.lo64 R.hi32 L.sign L.scale bSign
  else
    let iScale : Int := (R.scale : Int) - L.scale
    if iScale < 0 then
      unequalCont R L (-iScale).toNat (L.sign ^^^ bSign) L.scale bSign
    else
      unequalCont L R iScale.toNat L.sign R.scale bSign

/-- `PowerOvfl[].Hi` (decimal_calc.cpp 704–725): upper 64 bits of the
largest 96-bit value whose product with `10^k` still fits in 96 bits. -/
def PowerOvflHi (k : Nat) : Nat :=
  match k with
  | 0 => 18446744073709551615
  | 1 => 1844674407370955161
  | 2 => 184467440737095516
  | 3 => 18446744073709551
  | 4 => 1844674407370955
  | 5 => 184467440737095
  | 6 => 18446744073709
  | 7 => 1844674407370
  | 8 => 184467440737
  | 9 => 18446744073
  | 10 => 1844674407
  | 11 => 184467440
  | 12 => 18446744
  | 13 => 1844674
  | 14 => 184467
  | 15 => 18446
  | 16 => 1844
  | 17 => 184
  | 18 => 18
  | _ => 1

/-- `PowerOvfl[].Lo` (decimal_calc.cpp 704–725): low 32 bits of the same
bound. -/
def PowerOvflLo (k : Nat) : Nat :=
  match k with
  | 0 => 4294967295
  | 1 => 2576980377
  | 2 => 687194767
  | 3 => 2645699854
  | 4 => 694066715
  | 5 => 2216890319
  | 6 => 2369172679
  | 7 => 4102387834
  | 8 => 410238783
  | 9 => 3047500985
  | 10 => 1593240287
  | 11 => 3165801135
  | 12 => 316580113
  | 13 => 1749644929
  | 14 => 1892951411
  | 15 => 3195772248
  | 16 => 2896557602
  | 17 => 2007642678
  | 18 => 1918751186
  | _ => 3627848955

/-- `OVFL_MAX32_1_HI` (decimal_calc.cpp 727). -/
def OVFL_MAX32_1_HI : Nat := 429496729

/-- The `HaveScale` exit of `SearchScale64` (decimal_calc.cpp 895–906):
`-1` when even the found power cannot make the scale non-negative,
unless that power is the maximum 19. -/
def haveScale (k : Nat) (iScale : Int) : Int :=
  if (k : Int) + iScale < 0 ∧ k ≠ 19 then -1 else k

/-- The `iCurScale` value of `SearchScale64` as control reaches the
`HaveScale` label (decimal_calc.cpp 829–895). -/
def searchScaleK (q0 q1 q2 : Nat) (iScale : Int) : Nat :=
  if 28 ≤ iScale ∨ OVFL_MAX32_1_HI < q2 then 0
  else
    let ulResHi := q2 * W32 + q1
    let msbPath : Nat :=
      if ulResHi ≠ 0 then
        let msb := BitScanMsb ulResHi
        let e := (63 - msb) * 77 / 256 + 1
        if PowerOvflHi e < ulResHi then e - 1
        else if ulResHi = PowerOvflHi e then
          (if PowerOvflLo e < q0 then e - 1 else e)
        else e
      else 19
    if 9 < iScale then
      let c := (28 - iScale).toNat
      if ulResHi < PowerOvflHi c then c
      else if ulResHi = PowerOvflHi c then
        (if PowerOvflLo c < q0 then c - 1 else c)
      else msbPath
    else msbPath

/-- `SearchScale64` (decimal_calc.cpp 829–907): the largest power of ten
the 96-bit quotient `(q2,q1,q0)` can be scaled by without overflowing
96 bits or pushing the scale past 28, through the shared `HaveScale`
exit. -/
def SearchScale64 (q0 q1 q2 : Nat) (iScale : Int) : Int :=
  haveScale (searchScaleK q0 q1 q2 iScale) iScale

/-- `Div96By32_x64` (decimal_calc.cpp 926–961): divide a 96-bit value
(three 32-bit limbs) by a 32-bit divisor in place; returns
(new limbs, remainder). -/
def Div96By32 (l0 l1 l2 den : Nat) : (Nat × Nat × Nat) × Nat :=
  if den ≤ l2 then
    let d2 := DivMod32By32 l2 den
    let d1 := DivMod64By32 l1 d2.2 den
    let d0 := DivMod64By32 l0 d1.2 den
    ((d0.1, d1.1, d2.1 % W32), d0.2)
  else
    if l2 ≠ 0 ∨ den ≤ l1 then
      let d1 := DivMod64By32 l1 l2 den
      let d0 := DivMod64By32 l0 d1.2 den
      ((d0.1, d1.1, 0), d0.2)
    else
      let d0 := DivMod64By32 l0 l1 den
      ((d0.1, 0, 0), d0.2)

/-- `IncreaseScale96By32` (decimal_calc.cpp 797–809): multiply a 96-bit
value by a 32-bit power of ten in place; returns
(new limbs, high 32 bits of the product). -/
def IncreaseScale96By32 (l0 l1 l2 pwr : Nat) : (Nat × Nat × Nat) × Nat :=
  let m0 := Mul64By32 (l0 + l1 * W32) pwr
  let t := Mul32By32 l2 pwr + m0.2
  ((low32 m0.1, hi32 m0.1, low32 t), hi32 t)

/-- `IncreaseScale96By64` (decimal_calc.cpp 771–794): multiply a 96-bit
value by a 64-bit power of ten in place; returns
(new limbs, bits 96–159 of the product). -/
def IncreaseScale96By64 (l0 l1 l2 pwr : Nat) : (Nat × Nat × Nat) × Nat :=
  let m0 := Mul64By64 (l0 + l1 * W32) pwr
  let m2 := Mul64By64 l2 pwr
  let a := AddCarry64 0 m2.1 m0.2
  let ovfl := (AddCarry64 a.2 m2.2 0).1
  ((low32 m0.1, hi32 m0.1, low32 a.1), low32 ovfl * W32 + hi32 a.1)

/-- The `NegRem` correction loop of `Div96By64_x64` /
`Div128By64_x64` (decimal_calc.cpp 1218–1226): add the divisor back
until the remainder is in range, decrementing the wrapped quotient.
With the divisor normalized (top bit set) this runs at most twice; fuel
8 is ample. -/
def negRemLoop (quoMod : Nat) : Nat → Nat → Nat → Nat → Nat × Nat
  | 0, quo, sdl, _ => (quo, sdl)
  | fuel + 1, quo, sdl, den =>
    let quo := (quo + quoMod - 1) % quoMod
    let sdl := (sdl + den) % W64
    if den ≤ sdl then negRemLoop quoMod fuel quo sdl den else (quo, sdl)

/-- `Div96By64_x64` (decimal_calc.cpp 1182–1230): divide the 96-bit
value `(l2, rem01)` by a normalized 64-bit divisor; returns
(32-bit quotient, 64-bit remainder). -/
def Div96By64 (rem01 l2 den : Nat) : Nat × Nat :=
  let l0 := low32 rem01
  let l1 := hi32 rem01
  if hi32 den ≤ l2 then
    let sdl := (l1 + W32 - low32 den) % W32 * W32 + l0
    negRemLoop W32 8 0 sdl den
  else if l2 = 0 ∧ rem01 < den then (0, rem01)
  else
    let q := DivMod64By32 l1 l2 (hi32 den)
    let sdl := q.2 * W32 + l0
    let prod := Mul32By32 q.1 (low32 den)
    let s := SubBorrow64 0 sdl prod
    if s.2 ≠ 0 then negRemLoop W32 8 q.1 s.1 den else (q.1, s.1)

/-- `Div128By64_x64` (decimal_calc.cpp 1252–1298, `HAS_DIVMOD128BY64`
path): divide the 128-bit value `(hi, lo)` by a normalized 64-bit
divisor; returns (64-bit quotient, 64-bit remainder). -/
def Div128By64 (lo hi den : Nat) : Nat × Nat :=
  if den ≤ hi then negRemLoop W64 8 0 hi den
  else if hi = 0 ∧ lo < den then (0, lo)
  else DivMod128By64 lo hi den

/-- The correction loop of `Div128By96_x64` (decimal_calc.cpp
1023–1047): add the divisor back (at most twice — its top limb has bit
31 set) until the 96-bit remainder goes non-negative. -/
def corr128By96 : Nat → Nat → Nat → Nat → Nat → Nat → Nat × Nat × Nat
  | 0, quo, sdl, n2, _, _ => (quo, sdl, n2)
  | fuel + 1, quo, sdl, n2, den01, den2 =>
    let quo := (quo + W32 - 1) % W32
    let a1 := AddCarry64 0 sdl den01
    let a2 := AddCarry32 a1.2 n2 den2
    if a2.2 = 0 then corr128By96 fuel quo a1.1 a2.1 den01 den2
    else (quo, a1.1, a2.1)

/-- `Div128By96_x64` (decimal_calc.cpp 993–1051): partial divide of the
128-bit value `(n3,n2,n1,n0)` by the normalized 96-bit divisor
`(den2, den01)`; returns (32-bit quotient, remainder limbs n0,n1,n2). -/
def Div128By96 (n0 n1 n2 n3 den01 den2 : Nat) :
    Nat × Nat × Nat × Nat :=
  if n3 = 0 ∧ n2 < den2 then (0, n0, n1, n2)
  else
    let q := DivMod64By32 n2 n3 den2
    let prod := Mul64By32 den01 q.1
    let s1 := SubBorrow64 0 (n0 + n1 * W32) prod.1
    let s2 := SubBorrow32 s1.2 q.2 prod.2
    if s2.2 ≠ 0 then
      let c := corr128By96 8 q.1 s1.1 s2.1 den01 den2
      (c.1, low32 c.2.1, hi32 c.2.1, c.2.2)
    else (q.1, low32 s1.1, hi32 s1.1, s2.1)

/-- `Div160By96_x64` (decimal_calc.cpp 1073–1088): divide the 160-bit
value (limbs n0..n4) by the normalized 96-bit divisor; two partial
divides over sliding limb windows.  Returns
(64-bit quotient, remainder limbs n0,n1,n2). -/
def Div160By96 (n0 n1 n2 n3 n4 den01 den2 : Nat) :
    Nat × Nat × Nat × Nat :=
  if den2 ≤ n3 + n4 * W32 then
    let h := Div128By96 n1 n2 n3 n4 den01 den2
    let l := Div128By96 n0 h.2.1 h.2.2.1 h.2.2.2 den01 den2
    ((h.1 * W32 % W64 + l.1) % W64, l.2)
  else
    let l := Div128By96 n0 n1 n2 n3 den01 den2
    (l.1, l.2)

/-- `Add96By32` on a `uint32_t` quotient array (decimal_calc.cpp
740–745); the carry out of bit 95 is dropped at the call sites. -/
def add96Q32 (l0 l1 l2 v : Nat) : Nat × Nat × Nat :=
  let a0 := AddCarry32 0 l0 v
  let a1 := AddCarry32 a0.2 l1 0
  let a2 := AddCarry32 a1.2 l2 0
  (a0.1, a1.1, a2.1)

/-- `Add96By64` on a `uint32_t` quotient array (decimal_calc.cpp
729–738); the carry out of bit 95 is dropped at the call site. -/
def add96Q64 (l0 l1 l2 v : Nat) : Nat × Nat × Nat :=
  let a := AddCarry64 0 (l0 + l1 * W32) v
  let a2 := AddCarry32 a.2 l2 0
  (low32 a.1, hi32 a.1, a2.1)

/-- State carried out of the `DecimalDiv` loops: the quotient limbs
`rgulQuo[0..2]`, the running scale, and the unscale flag. -/
structure DivSt where
  q0 : Nat
  q1 : Nat
  q2 : Nat
  iScale : Int
  fUnscale : Bool
deriving Repr, DecidableEq

/-- The `HaveScale32` block of `DecimalDiv`'s 32-bit-divisor loop
(decimal_calc.cpp 1391–1402), parameterized by the loop continuation. -/
def divHaveScale32Go
    (k : Nat → Nat → Nat → Nat → Int → Bool → Nat → Except DErr DivSt)
    (q0 q1 q2 rem : Nat) (iScale : Int) (fUnscale : Bool) (den : Nat)
    (cur : Int) : Except DErr DivSt :=
  let pwr := pow10 cur.toNat
  let iScale := iScale + cur
  let inc := IncreaseScale96By32 q0 q1 q2 pwr
  if inc.2 ≠ 0 then .error .ovfl
  else
    let num := Mul32By32 rem pwr
    let d := DivMod64By32 (low32 num) (hi32 num) den
    let a := add96Q32 inc.1.1 inc.1.2.1 inc.1.2.2 d.1
    k a.1 a.2.1 a.2.2 d.2 iScale fUnscale den

/-- The `for(;;)` loop of the 32-bit-divisor branch of `DecimalDiv`
(decimal_calc.cpp 1345–1403). -/
def divLoop32 :
    Nat → Nat → Nat → Nat → Nat → Int → Bool → Nat → Except DErr DivSt
  | 0, _, _, _, _, _, _, _ => .error .fuelOut
  | fuel + 1, q0, q1, q2, rem, iScale, fUnscale, den =>
    if rem = 0 then
      if iScale < 0 then
        divHaveScale32Go (divLoop32 fuel) q0 q1 q2 rem iScale fUnscale den
          (min 9 (-iScale))
      else .ok ⟨q0, q1, q2, iScale, fUnscale⟩
    else
      let cur := SearchScale64 q0 q1 q2 iScale
      if cur = 0 then
        let ulTmp := rem * 2 % W32
        if ulTmp < rem ∨ ulTmp > den ∨ (ulTmp = den ∧ q0 % 2 = 1) then
          let a := add96Q32 q0 q1 q2 1
          .ok ⟨a.1, a.2.1, a.2.2, iScale, true⟩
        else .ok ⟨q0, q1, q2, iScale, true⟩
      else if cur = -1 then .error .ovfl
      else divHaveScale32Go (divLoop32 fuel) q0 q1 q2 rem iScale true den
        (min cur 9)

/-- The `HaveScale64` block of `DecimalDiv`'s 64-bit-divisor loop
(decimal_calc.cpp 1467–1479), parameterized by the loop continuation. -/
def divHaveScale64Go
    (k : Nat → Nat → Nat → Nat → Int → Bool → Nat → Except DErr DivSt)
    (q0 q1 q2 rem01 : Nat) (iScale : Int) (fUnscale : Bool) (den : Nat)
    (cur : Int) : Except DErr DivSt :=
  let cur := min cur 9
  let pwr := pow10 cur.toNat
  let iScale := iScale + cur
  let inc := IncreaseScale96By32 q0 q1 q2 pwr
  if inc.2 ≠ 0 then .error .ovfl
  else
    let m := Mul64By32 rem01 pwr
    let d := Div96By64 m.1 m.2 den
    let a := add96Q32 inc.1.1 inc.1.2.1 inc.1.2.2 d.1
    k a.1 a.2.1 a.2.2 d.2 iScale fUnscale den

/-- The `for(;;)` loop of the 64-bit-divisor branch of `DecimalDiv`
(decimal_calc.cpp 1437–1480). -/
def divLoop64 :
    Nat → Nat → Nat → Nat → Nat → Int → Bool → Nat → Except DErr DivSt
  | 0, _, _, _, _, _, _, _ => .error .fuelOut
  | fuel + 1, q0, q1, q2, rem01, iScale, fUnscale, den =>
    if rem01 = 0 then
      if iScale < 0 then
        divHaveScale64Go (divLoop64 fuel) q0 q1 q2 rem01 iScale fUnscale den
          (min 19 (-iScale))
      else .ok ⟨q0, q1, q2, iScale, fUnscale⟩
    else
      let cur := SearchScale64 q0 q1 q2 iScale
      if cur = 0 then
        if 9223372036854775808 ≤ rem01 ∨ rem01 * 2 % W64 > den ∨
            (rem01 * 2 % W64 = den ∧ q0 % 2 = 1) then
          let a := add96Q32 q0 q1 q2 1
          .ok ⟨a.1, a.2.1, a.2.2, iScale, true⟩
        else .ok ⟨q0, q1, q2, iScale, true⟩
      else if cur = -1 then .error .ovfl
      else divHaveScale64Go (divLoop64 fuel) q0 q1 q2 rem01 iScale true den cur

/-- The `HaveScale96` block of `DecimalDiv`'s 96-bit-divisor loop
(decimal_calc.cpp 1534–1557, `HAS_DIVMOD128BY64` path), parameterized by
the loop continuation. -/
def divHaveScale96Go
    (k : Nat → Nat → Nat → Nat → Nat → Nat → Int → Bool → Nat → Nat →
      Except DErr DivSt)
    (q0 q1 q2 r0 r1 r2 : Nat) (iScale : Int) (fUnscale : Bool)
    (den01 den2 : Nat) (cur : Int) : Except DErr DivSt :=
  let pwr := pow10 cur.toNat
  let iScale := iScale + cur
  let incQ := IncreaseScale96By64 q0 q1 q2 pwr
  if incQ.2 ≠ 0 then .error .ovfl
  else
    let incR := IncreaseScale96By64 r0 r1 r2 pwr
    let d := Div160By96 incR.1.1 incR.1.2.1 incR.1.2.2
      (low32 incR.2) (hi32 incR.2) den01 den2
    let a := add96Q64 incQ.1.1 incQ.1.2.1 incQ.1.2.2 d.1
    k a.1 a.2.1 a.2.2 d.2.1 d.2.2.1 d.2.2.2 iScale fUnscale den01 den2

/-- The `for(;;)` loop of the 96-bit-divisor branch of `DecimalDiv`
(decimal_calc.cpp 1496–1558). -/
def divLoop96 :
    Nat → Nat → Nat → Nat → Nat → Nat → Nat → Int → Bool → Nat → Nat →
      Except DErr DivSt
  | 0, _, _, _, _, _, _, _, _, _, _ => .error .fuelOut
  | fuel + 1, q0, q1, q2, r0, r1, r2, iScale, fUnscale, den01, den2 =>
    if r0 = 0 ∧ r1 = 0 ∧ r2 = 0 then
      if iScale < 0 then
        divHaveScale96Go (divLoop96 fuel) q0 q1 q2 r0 r1 r2 iScale fUnscale
          den01 den2 (min 19 (-iScale))
      else .ok ⟨q0, q1, q2, iScale, fUnscale⟩
    else
      let cur := SearchScale64 q0 q1 q2 iScale
      if cur = 0 then
        if 2147483648 ≤ r2 then
          let a := add96Q32 q0 q1 q2 1
          .ok ⟨a.1, a.2.1, a.2.2, iScale, true⟩
        else
          let a1 := AddCarry64 0 (r0 + r1 * W32) (r0 + r1 * W32)
          let r2d := (a1.2 + r2 + r2) % W32
          if r2d > den2 ∨ (r2d = den2 ∧
              (a1.1 > den01 ∨ (a1.1 = den01 ∧ q0 % 2 = 1))) then
            let a := add96Q32 q0 q1 q2 1
            .ok ⟨a.1, a.2.1, a.2.2, iScale, true⟩
          else .ok ⟨q0, q1, q2, iScale, true⟩
      else if cur = -1 then .error .ovfl
      else divHaveScale96Go (divLoop96 fuel) q0 q1 q2 r0 r1 r2 iScale true
        den01 den2 cur

/-- One trailing-zero trim attempt of the unscale block (decimal_calc.cpp
1588–1619): divide by `10^dec` and keep the quotient only on a zero
remainder. -/
def unscaleTry (m p : Nat) (dec : Int) (q0 q1 q2 : Nat) (s : Int) :
    Nat × Nat × Nat × Int :=
  if q0 % m = 0 ∧ dec ≤ s then
    let d := Div96By32 q0 q1 q2 p
    if d.2 = 0 then (d.1.1, d.1.2.1, d.1.2.2, s - dec) else (q0, q1, q2, s)
  else (q0, q1, q2, s)

/-- The `while` of the unscale block trying `10^8` repeatedly
(decimal_calc.cpp 1575–1586); at most three iterations are reachable
(scale ≤ 28). -/
def unscaleLoop8 : Nat → Nat → Nat → Nat → Int → Nat × Nat × Nat × Int
  | 0, q0, q1, q2, s => (q0, q1, q2, s)
  | fuel + 1, q0, q1, q2, s =>
    if q0 % 256 = 0 ∧ 8 ≤ s then
      let d := Div96By32 q0 q1 q2 100000000
      if d.2 = 0 then unscaleLoop8 fuel d.1.1 d.1.2.1 d.1.2.2 (s - 8)
      else (q0, q1, q2, s)
    else (q0, q1, q2, s)

/-- The post-division unscale block (decimal_calc.cpp 1563–1620): peel
off trailing decimal zeros by `10^8, 10^4, 10^2, 10`. -/
def unscale (q0 q1 q2 : Nat) (s : Int) : Nat × Nat × Nat × Int :=
  let u8 := unscaleLoop8 8 q0 q1 q2 s
  let u4 := unscaleTry 16 10000 4 u8.1 u8.2.1 u8.2.2.1 u8.2.2.2
  let u2 := unscaleTry 4 100 2 u4.1 u4.2.1 u4.2.2.1 u4.2.2.2
  unscaleTry 2 10 1 u2.1 u2.2.1 u2.2.2.1 u2.2.2.2

/-- Final assembly of `DecimalDiv` (decimal_calc.cpp 1562–1626): run the
unscale block when a nonzero remainder occurred, then store the quotient
with sign = XOR of the operand signs. -/
def divFinish (L R : DECIMAL) (st : Except DErr DivSt) : Except DErr DECIMAL :=
  match st with
  | .error e => .error e
  | .ok s =>
    let u := if s.fUnscale then unscale s.q0 s.q1 s.q2 s.iScale
             else (s.q0, s.q1, s.q2, s.iScale)
    .ok ⟨u.1 + u.2.1 * W32, u.2.2.1, byteOfInt u.2.2.2, L.sign ^^^ R.sign⟩

/-- `DecimalDiv` (decimal_calc.cpp 1305–1627). -/
def DecimalDiv (L R : DECIMAL) : Except DErr DECIMAL :=
  let iScale : Int := (L.scale : Int) - R.scale
  let d01 := R.lo64
  let d2 := R.hi32
  divFinish L R <|
    if d2 = 0 ∧ d01 < W32 then
      if d01 = 0 then Except.error DErr.divZero
      else
        let q := Div96By32 (low32 L.lo64) (hi32 L.lo64) L.hi32 d01
        divLoop32 64 q.1.1 q.1.2.1 q.1.2.2 q.2 iScale false d01
    else
      let ulTmp := if d2 = 0 then hi32 d01 else d2
      let c := 31 - BitScanMsb ulTmp
      let rem01 := L.lo64 * 2 ^ c % W64
      let rem23 := ShiftLeft128 L.lo64 L.hi32 c
      let den := d01 * 2 ^ c % W64
      if d2 = 0 then
        let dv := Div128By64 rem01 rem23 den
        divLoop64 64 (low32 dv.1) (hi32 dv.1) 0 dv.2 iScale false den
      else
        let den2 := low32 (ShiftLeft128 d01 d2 c)
        let dv := Div128By96 (low32 rem01) (hi32 rem01) (low32 rem23)
          (hi32 rem23) den den2
        divLoop96 64 (low32 dv.1) (hi32 dv.1) 0 dv.2.1 dv.2.2.1 dv.2.2.2
          iScale false den den2

/-- `DECIMAL_PRECISION`. Modelled from the spec: the constant is defined
in `decimal.h`, which is not part of the provided sources; the spec's
parse section stores "mantissa zero with scale 28" where the code stores
`DECIMAL_PRECISION - 1`, and 29 is the decimal digit count of the 96-bit
mantissa bound `2^96 - 1`, giving `DECIMAL_PRECISION = 29`. -/
def DECIMAL_PRECISION : Nat := 29

/-- The parse input `NUMBER`: digit values (0–9, most significant
first, NUL-terminated in C), the decimal exponent `scale`, and the sign
flag. -/
structure NUMBER where
  digits : List Nat
  scale : Int
  sign : Bool

/-- The character `*p` at digit index `i`: an ASCII digit inside the
string, the NUL terminator 0 past its end. -/
def chrAt (ds : List Nat) (i : Nat) : Nat :=
  if i < ds.length then 48 + ds.getD i 0 else 0

/-- Mantissa state of `NumberToDecimal`: the three 32-bit limbs of `d`,
the running exponent `e`, and the read position. -/
structure PState where
  lo : Nat
  mid : Nat
  hi : Nat
  e : Int
  i : Nat
deriving Repr, DecidableEq

/-- `DecShiftLeft` (decimal.cpp 455–465): shift the 96-bit mantissa left
one bit. -/
def DecShiftLeft (lo mid hi : Nat) : Nat × Nat × Nat :=
  let c0 := if lo % W32 ≥ 2147483648 then 1 else 0
  let c1 := if mid % W32 ≥ 2147483648 then 1 else 0
  (lo * 2 % W32, (mid * 2 + c0) % W32, (hi * 2 + c1) % W32)

/-- `DecAdd` via `D32AddCarry` (decimal.cpp 467–492): 96-bit add with the
source's limb-by-limb carry structure. -/
def DecAdd (lo mid hi lo2 mid2 hi2 : Nat) : Nat × Nat × Nat :=
  let s0 := AddCarry32 0 lo lo2
  let m1 := if s0.2 ≠ 0 then AddCarry32 0 mid 1 else (mid, 0)
  let h1 := if m1.2 ≠ 0 then (hi + 1) % W32 else hi
  let s1 := AddCarry32 0 m1.1 mid2
  let h2 := if s1.2 ≠ 0 then (h1 + 1) % W32 else h1
  (s0.1, s1.1, (h2 + hi2) % W32)

/-- `DecMul10` (decimal.cpp 494–504): multiply the 96-bit mantissa by
ten, as `((x*2*2) + x) * 2`. -/
def DecMul10 (lo mid hi : Nat) : Nat × Nat × Nat :=
  let s1 := DecShiftLeft lo mid hi
  let s2 := DecShiftLeft s1.1 s1.2.1 s1.2.2
  let a := DecAdd s2.1 s2.2.1 s2.2.2 lo mid hi
  DecShiftLeft a.1 a.2.1 a.2.2

/-- `DecAddInt32` (decimal.cpp 506–516): add a 32-bit value to the
96-bit mantissa. -/
def DecAddInt32 (lo mid hi v : Nat) : Nat × Nat × Nat :=
  let s0 := AddCarry32 0 lo v
  let m1 := if s0.2 ≠ 0 then AddCarry32 0 mid 1 else (mid, 0)
  let h1 := if m1.2 ≠ 0 then (hi + 1) % W32 else hi
  (s0.1, m1.1, h1)

/-- The digit-absorption `while` guard of `NumberToDecimal` (decimal.cpp
315–318): more exponent or digits to absorb, and the next `×10 + digit`
still fits (`d ≤ 0x19999999_99999999_99999999`, with the next digit
breaking the tie at the exact bound). -/
def absorbGuard (ds : List Nat) (st : PState) : Prop :=
  (0 < st.e ∨ (chrAt ds st.i ≠ 0 ∧ -28 < st.e)) ∧
  (st.hi < 429496729 ∨ (st.hi = 429496729 ∧
    (st.mid < 2576980377 ∨ (st.mid = 2576980377 ∧
      (st.lo < 2576980377 ∨ (st.lo = 2576980377 ∧ chrAt ds st.i ≤ 53))))))

instance (ds : List Nat) (st : PState) : Decidable (absorbGuard ds st) := by
  unfold absorbGuard; infer_instance

/-- One body iteration of the absorption loop (decimal.cpp 319–322). -/
def absorbStep (ds : List Nat) (st : PState) : PState :=
  let m := DecMul10 st.lo st.mid st.hi
  if chrAt ds st.i ≠ 0 then
    let a := DecAddInt32 m.1 m.2.1 m.2.2 (chrAt ds st.i - 48)
    ⟨a.1, a.2.1, a.2.2, st.e - 1, st.i + 1⟩
  else ⟨m.1, m.2.1, m.2.2, st.e - 1, st.i⟩

/-- The digit-absorption loop of `NumberToDecimal` (decimal.cpp
315–322); `e ≤ DECIMAL_PRECISION` on entry bounds it by 57 iterations,
so fuel 128 is ample. -/
def absorbLoop (ds : List Nat) : Nat → PState → PState
  | 0, st => st
  | fuel + 1, st =>
    if absorbGuard ds st then absorbLoop ds fuel (absorbStep ds st) else st

/-- The up-to-20-digit tie scan of banker's rounding (decimal.cpp
327–331): skip zeros; returns the stop position and the remaining
count. -/
def tieScan (ds : List Nat) : Nat → Nat → Nat × Nat
  | 0, j => (j, 0)
  | count + 1, j =>
    if chrAt ds j = 48 then tieScan ds count (j + 1) else (j, count + 1)

/-- Common tail of `NumberToDecimal` (decimal.cpp 347–364): reject a
positive leftover exponent; collapse an exponent at or below
`-DECIMAL_PRECISION` to a mantissa-zero decimal of scale
`DECIMAL_PRECISION - 1`; otherwise the scale is `-e`. -/
def numTail (lo mid hi : Nat) (e : Int) (sgn : Bool) : Option DECIMAL :=
  if 0 < e then none
  else if e ≤ -(DECIMAL_PRECISION : Int) then
    some ⟨0, 0, DECIMAL_PRECISION - 1, if sgn then 128 else 0⟩
  else some ⟨lo + mid * W32, hi, (-e).toNat, if sgn then 128 else 0⟩

/-- `COMDecimal::NumberToDecimal` (decimal.cpp 292–365); `none` models
the `return 0` failure. The read of `*(p-2)` when no digit was absorbed
falls into the adjacent `sign` field of the `NUMBER` struct (layout:
`int sign` directly precedes `digits`), modelled by `numberSignWord`. -/
def NumberToDecimal (num : NUMBER) : Option DECIMAL :=
  if num.digits.length = 0 then
    let e := if 0 < num.scale then 0 else num.scale
    numTail 0 0 0 e num.sign
  else if (DECIMAL_PRECISION : Int) < num.scale then none
  else
    let st := absorbLoop num.digits 128 ⟨0, 0, 0, num.scale, 0⟩
    let c := chrAt num.digits st.i
    let i1 := st.i + 1
    if 53 ≤ c then
      let prev := if 2 ≤ i1 then chrAt num.digits (i1 - 2)
                  else (if num.sign then 1 else 0)
      let round :=
        if c = 53 ∧ prev % 2 = 0 then
          let t := tieScan num.digits 20 i1
          ¬(chrAt num.digits t.1 = 0 ∨ t.2 = 0)
        else True
      if round then
        let a := DecAddInt32 st.lo st.mid st.hi 1
        if a.2.2 ||| a.2.1 ||| a.1 = 0 then
          numTail 2576980378 2576980377 429496729 (st.e + 1) num.sign
        else numTail a.1 a.2.1 a.2.2 st.e num.sign
      else numTail st.lo st.mid st.hi st.e num.sign
    else numTail st.lo st.mid st.hi st.e num.sign

/-- Spec-side: a 96-bit quotient still fits in 96 bits after scaling by
`10^k`. -/
def fits96 (q k : Nat) : Prop := q * pow10 k < W96

instance (q k : Nat) : Decidable (fits96 q k) := by unfold fits96; infer_instance

/-- Spec-side: the largest value whose product with `10^k` fits in
96 bits (the semantic content of the `PowerOvfl` table). -/
def Vmax (k : Nat) : Nat := (W96 - 1) / pow10 k

/-- Spec-side ("returns the maximum k in [0, 19] such that
quotient × 10^k still fits in 96 bits and scale + k ≤ 28"): the best
scaling power for a quotient `q` at scale `s`. -/
def kBest (q : Nat) (s : Int) : Nat :=
  Nat.findGreatest (fun k => fits96 q k ∧ s + k ≤ 28) 19

/-- Spec-side (claim C3): some admissible power of ten brings the scale
up to at least zero. -/
def canReachZero (q : Nat) (s : Int) : Prop :=
  ∃ k, k ≤ 19 ∧ fits96 q k ∧ s + k ≤ 28 ∧ 0 ≤ s + k

instance (q : Nat) (s : Int) : Decidable (canReachZero q s) := by
  unfold canReachZero
  exact decidable_of_iff
    (∃ k ∈ Finset.range 20, fits96 q k ∧ s + k ≤ 28 ∧ 0 ≤ s + k)
    (by constructor
        · rintro ⟨k, h1, h2⟩
          exact ⟨k, by have := Finset.mem_range.mp h1; omega, h2⟩
        · rintro ⟨k, h1, h2⟩; exact ⟨k, Finset.mem_range.mpr (by omega), h2⟩)

/-- Spec-side (claim C1): the invariants of every produced value —
scale in [0,28], mantissa below 2^96, reserved flag bits zero (the low
16 bits of the published flags word, and the seven non-sign bits of the
sign byte). -/
def resInv (d : DECIMAL) : Prop :=
  d.scale ≤ 28 ∧ mantissa d < W96 ∧ (d.sign = 0 ∨ d.sign = 128) ∧
    flagsWord d % 65536 = 0

instance : DecidablePred resInv := fun d => by unfold resInv; infer_instance

deriving instance DecidableEq for Except

/-- Discriminator for the `DIV_BY_ZERO` error of a core operation. -/
def isDivZero {α : Type} : Except DErr α → Bool
  | .error .divZero => true
  | _ => false

/-- The buffer holding a 96-bit magnitude `v` (third limb zero). -/
def mag96 (v : Nat) : Buf := ⟨v % W64, v / W64, 0⟩

/-- The loop invariant of the three `DecimalDiv` quotient loops:
quotient limbs reduced to 32 bits, scale in [0, 28] on exit. -/
def divInv (st : DivSt) : Prop :=
  st.q0 < W32 ∧ st.q1 < W32 ∧ st.q2 < W32 ∧ 0 ≤ st.iScale ∧ st.iScale ≤ 28

/-- Claim C4 counterexample: dividing 1.0 (mantissa 10, scale 1) by 1
(mantissa 1, scale 0) does NOT return mantissa 1 with scale 0 — the
division has remainder zero throughout, so the unscale step is skipped. -/
theorem C4_counterexample :
    DecimalDiv ⟨10, 0, 1, 0⟩ ⟨1, 0, 0, 0⟩ ≠ Except.ok ⟨1, 0, 0, 0⟩ := by
  decide

/-- Claim C4 (amended): dividing 1.0 by 1 returns mantissa 10 with
scale 1 (the natural scale, value 1.0); the post-division unscale step
runs only when the division produced a nonzero remainder. -/
theorem C4_div_keeps_natural_scale :
    DecimalDiv ⟨10, 0, 1, 0⟩ ⟨1, 0, 0, 0⟩ = Except.ok ⟨10, 0, 1, 0⟩ := by
  decide

/-- Claim C9 counterexample: 0.5 − 0.5 does NOT return scale 2. -/
theorem C9_counterexample :
    DecimalAddSub ⟨5, 0, 1, 0⟩ ⟨5, 0, 1, 0⟩ 128 ≠ Except.ok ⟨0, 0, 2, 0⟩ := by
  decide

/-- Claim C9 (amended): 0.5 − 0.5 returns zero with scale 1 — the
common scale of the operands — and a non-negative sign. -/
theorem C9_sub_half_half :
    DecimalAddSub ⟨5, 0, 1, 0⟩ ⟨5, 0, 1, 0⟩ 128 = Except.ok ⟨0, 0, 1, 0⟩ := by
  decide

/-- Claim C10: subtracting any bit-identical negative decimal from
itself succeeds and yields a negative zero: mantissa zero, the common
scale, sign bit still set. -/
theorem C10_neg_zero_result (d : DECIMAL) (hs : d.sign = 128) :
    DecimalAddSub d d 128 = Except.ok ⟨0, 0, d.scale, 128⟩ := by
  unfold DecimalAddSub addAligned
  simp [hs, SubBorrow64, SubBorrow32]

/-- Claim C10 witness at mantissa 7, scale 3. -/
theorem C10_witness :
    DecimalAddSub ⟨7, 0, 3, 128⟩ ⟨7, 0, 3, 128⟩ 128 =
      Except.ok ⟨0, 0, 3, 128⟩ :=
  C10_neg_zero_result ⟨7, 0, 3, 128⟩ rfl

/-- Claim C5 counterexample: multiplying 1e-28 (negative) by 1e-28
(positive) takes the `ReturnZero` early exit and returns the all-zero
decimal with a CLEAR sign bit, not sign(L) XOR sign(R) = 0x80. -/
theorem C5_counterexample :
    DecimalMul ⟨1, 0, 28, 128⟩ ⟨1, 0, 28, 0⟩ = Except.ok zeroDec ∧
      zeroDec.sign ≠ 128 ^^^ 0 := by
  decide

/-- Claim C5 (amended): for every success, the sign of `DecimalDiv` is
the XOR of the operand signs; the sign of `DecimalMul` is the XOR of
the operand signs except on the `ReturnZero` early exits, which return
the all-zero decimal (positive zero, scale 0). -/
theorem mulScaleFinish_sign (L R : DECIMAL) (prod : Buf) (iHi : Nat)
    (iScale : Int) (r : DECIMAL)
    (h : mulScaleFinish L R prod iHi iScale = Except.ok r) :
    r.sign = L.sign ^^^ R.sign := by
  unfold mulScaleFinish at h
  split at h
  · cases h
  · cases h
  · cases h; rfl

theorem divFinish_sign (L R : DECIMAL) (st : Except DErr DivSt) (r : DECIMAL)
    (h : divFinish L R st = Except.ok r) : r.sign = L.sign ^^^ R.sign := by
  unfold divFinish at h
  split at h
  · cases h
  · dsimp only at h
    cases h
    rfl

theorem C5_sign_law :
    (∀ L R r, DecimalDiv L R = Except.ok r → r.sign = L.sign ^^^ R.sign) ∧
    (∀ L R r, DecimalMul L R = Except.ok r →
      r.sign = L.sign ^^^ R.sign ∨ r = zeroDec) := by
  constructor
  · intro L R r h
    simp only [DecimalDiv] at h
    exact divFinish_sign L R _ r h
  · intro L R r h
    simp only [DecimalMul] at h
    repeat' split at h
    all_goals first
      | exact Or.inl (mulScaleFinish_sign _ _ _ _ _ _ h)
      | (cases h; first | (left; rfl) | (right; rfl))

/-- Claim C5 witness: −1 ÷ 2 = −0.5 carries sign 0x80 = 0x80 XOR 0. -/
theorem C5_witness :
    (⟨5, 0, 1, 128⟩ : DECIMAL).sign = 128 ^^^ 0 :=
  C5_sign_law.1 ⟨1, 0, 0, 128⟩ ⟨2, 0, 0, 0⟩ ⟨5, 0, 1, 128⟩ (by decide)

theorem divLoop32_no_divZero (fuel : Nat) :
    ∀ q0 q1 q2 rem s f den,
      isDivZero (divLoop32 fuel q0 q1 q2 rem s f den) = false := by
  induction fuel with
  | zero => intro q0 q1 q2 rem s f den; rfl
  | succ n ih =>
    intro q0 q1 q2 rem s f den
    simp only [divLoop32, divHaveScale32Go]
    repeat' split
    all_goals first | rfl | apply ih

theorem divLoop64_no_divZero (fuel : Nat) :
    ∀ q0 q1 q2 rem s f den,
      isDivZero (divLoop64 fuel q0 q1 q2 rem s f den) = false := by
  induction fuel with
  | zero => intro q0 q1 q2 rem s f den; rfl
  | succ n ih =>
    intro q0 q1 q2 rem s f den
    simp only [divLoop64, divHaveScale64Go]
    repeat' split
    all_goals first | rfl | apply ih

theorem divLoop96_no_divZero (fuel : Nat) :
    ∀ q0 q1 q2 r0 r1 r2 s f den01 den2,
      isDivZero (divLoop96 fuel q0 q1 q2 r0 r1 r2 s f den01 den2) = false := by
  induction fuel with
  | zero => intro q0 q1 q2 r0 r1 r2 s f den01 den2; rfl
  | succ n ih =>
    intro q0 q1 q2 r0 r1 r2 s f den01 den2
    simp only [divLoop96, divHaveScale96Go]
    repeat' split
    all_goals first | rfl | apply ih

theorem isDivZero_divFinish (L R : DECIMAL) :
    ∀ st, isDivZero (divFinish L R st) = isDivZero st
  | .error .ovfl => rfl
  | .error .divZero => rfl
  | .error .fuelOut => rfl
  | .ok _ => rfl

theorem addAligned_no_divZero (lLo lHi rLo rHi sign scale bSign : Nat) :
    isDivZero (addAligned lLo lHi rLo rHi sign scale bSign) = false := by
  unfold addAligned
  dsimp only
  repeat' split
  all_goals rfl

theorem bigFinish_no_divZero (n0 n1 n2 iHiProd resScale resSign : Nat) :
    isDivZero (bigFinish n0 n1 n2 iHiProd resScale resSign) = false := by
  unfold bigFinish
  repeat' split
  all_goals rfl

theorem bigAdd_no_divZero (n0 n1 n2 iHiProd : Nat) (Q : DECIMAL)
    (resSign resScale bSign : Nat) :
    isDivZero (bigAdd n0 n1 n2 iHiProd Q resSign resScale bSign) = false := by
  unfold bigAdd
  dsimp only
  repeat' split
  all_goals first | rfl | apply bigFinish_no_divZero

theorem unequalCont_no_divZero (P Q : DECIMAL)
    (diff resSign resScale bSign : Nat) :
    isDivZero (unequalCont P Q diff resSign resScale bSign) = false := by
  unfold unequalCont
  dsimp only
  repeat' split
  all_goals first | rfl | apply bigAdd_no_divZero | apply addAligned_no_divZero

theorem mulScaleFinish_no_divZero (L R : DECIMAL) (prod : Buf) (iHi : Nat)
    (iScale : Int) :
    isDivZero (mulScaleFinish L R prod iHi iScale) = false := by
  unfold mulScaleFinish
  repeat' split
  all_goals rfl

/-- Claim C6: `DecimalDiv` reports `DIV_BY_ZERO` exactly when the
divisor's 96-bit mantissa is zero, for every dividend and regardless of
the divisor's scale and sign; `DecimalAddSub` and `DecimalMul` never
report `DIV_BY_ZERO`. -/
theorem C6_div_by_zero_iff :
    (∀ L R : DECIMAL,
      isDivZero (DecimalDiv L R) = (R.lo64 == 0 && R.hi32 == 0)) ∧
    (∀ (L R : DECIMAL) (b : Nat), isDivZero (DecimalAddSub L R b) = false) ∧
    (∀ L R : DECIMAL, isDivZero (DecimalMul L R) = false) := by
  refine ⟨?_, ?_, ?_⟩
  · intro L R
    simp only [DecimalDiv, isDivZero_divFinish]
    by_cases h1 : R.hi32 = 0 ∧ R.lo64 < W32
    · rw [if_pos h1]
      by_cases h2 : R.lo64 = 0
      · simp [h2, h1.1, isDivZero]
      · rw [if_neg h2]
        simp [divLoop32_no_divZero, h2]
    · rw [if_neg h1]
      have h2 : ¬(R.lo64 = 0 ∧ R.hi32 = 0) := by
        rintro ⟨hl, hh⟩
        exact h1 ⟨hh, by rw [hl]; decide⟩
      split
      · simp [divLoop64_no_divZero]
        omega
      · simp [divLoop96_no_divZero]
        omega
  · intro L R b
    unfold DecimalAddSub
    dsimp only
    repeat' split
    all_goals
      first | apply addAligned_no_divZero | apply unequalCont_no_divZero
  · intro L R
    unfold DecimalMul
    dsimp only
    repeat' split
    all_goals first | rfl | apply mulScaleFinish_no_divZero

/-- Claim C7 counterexample: parsing the single digit 1 with exponent
−27 absorbs the digit, ending with exponent exactly −28, yet succeeds
with mantissa 1 (NOT zero) at scale 28 — the mantissa-zero collapse
happens only for exponents at or below −DECIMAL_PRECISION = −29. -/
theorem C7_counterexample :
    (absorbLoop [1] 128 ⟨0, 0, 0, -27, 0⟩).e = -28 ∧
    NumberToDecimal ⟨[1], -27, false⟩ = some ⟨1, 0, 28, 0⟩ ∧
    mantissa ⟨1, 0, 28, 0⟩ ≠ 0 := by
  decide

theorem numTail_small (lo mid hi : Nat) (e : Int) (sgn : Bool)
    (he : e ≤ -29) :
    numTail lo mid hi e sgn = some ⟨0, 0, 28, if sgn then 128 else 0⟩ := by
  unfold numTail DECIMAL_PRECISION
  rw [if_neg (by omega), if_pos (by omega)]

/-- Claim C7 (amended): when `NumberToDecimal` receives non-empty digits
with an exponent at or below −29 (= −DECIMAL_PRECISION, so that the
exponent after absorption — which never sinks past −28 once digits are
being absorbed — is still at most −29), it succeeds and returns mantissa
zero with scale exactly 28. -/
theorem C7_small_exponent_gives_zero (num : NUMBER)
    (hd : num.digits ≠ []) (he : num.scale ≤ -29) :
    NumberToDecimal num =
      some ⟨0, 0, 28, if num.sign then 128 else 0⟩ := by
  unfold NumberToDecimal
  have hlen : ¬ num.digits.length = 0 := by
    intro h
    exact hd (List.length_eq_zero.mp h)
  have hpr : ¬ (DECIMAL_PRECISION : Int) < num.scale := by
    unfold DECIMAL_PRECISION
    omega
  have habs : absorbLoop num.digits 128 ⟨0, 0, 0, num.scale, 0⟩ =
      ⟨0, 0, 0, num.scale, 0⟩ := by
    unfold absorbLoop
    rw [if_neg]
    intro hg
    unfold absorbGuard at hg
    rcases hg.1 with h | h
    · dsimp only at h
      omega
    · dsimp only at h
      omega
  rw [if_neg hlen, if_neg hpr, habs]
  have hnt : ∀ (lo mid hi : Nat) (sgn : Bool),
      numTail lo mid hi num.scale sgn =
        some ⟨0, 0, 28, if sgn then 128 else 0⟩ :=
    fun lo mid hi sgn => numTail_small lo mid hi num.scale sgn (by omega)
  dsimp only
  repeat' split
  all_goals simp_all [hnt, DecAddInt32, AddCarry32, W32]

/-- Claim C7 witness: digits "9", exponent −30, negative sign. -/
theorem C7_witness :
    NumberToDecimal ⟨[9], -30, true⟩ = some ⟨0, 0, 28, 128⟩ := by
  have h := C7_small_exponent_gives_zero ⟨[9], -30, true⟩ (by decide)
    (by decide)
  simpa using h

/-- Claim C2: the final rounding step of `ScaleResult`, at a state with
the 96-bit magnitude `b0 + b1·2^64` (the fits-in-96-bits check has
passed), last divisor `10^j` and last remainder `rem`: the magnitude is
incremented exactly when `rem > d/2`, or `rem = d/2` and (the low bit of
the result OR the sticky accumulation of earlier remainders) is nonzero;
if that increment carries past 96 bits the value is divided by ten once
more (yielding `⌊2^96/10⌋ + 1` after that division's own round-up) with
the scale decremented again; and whenever the scale would end below 0
the function signals overflow (`ScaleResult`'s `-1`). -/
theorem C2_scale_result_rounding
    (fuel b0 b1 iHiRes sticky j rem : Nat) (iScale : Int)
    (hf : 1 ≤ fuel) (hb0 : b0 < W64) (hb1 : b1 < W32)
    (hihi : iHiRes ≤ 1) (h01 : iHiRes = 0 → b1 = 0)
    (hj1 : 1 ≤ j) (hj9 : j ≤ 9) (hrem : rem < pow10 j) :
    scaleResultRound fuel ⟨b0, b1, 0⟩ iHiRes sticky (pow10 j) rem iScale =
      (if pow10 j / 2 < rem ∨
          (rem = pow10 j / 2 ∧ (b0 % 2 = 1 ∨ sticky ≠ 0)) then
        if b0 + b1 * W64 + 1 < W96 then
          if iScale < 0 then some ScaleOut.ovfl
          else some (ScaleOut.ok iScale (mag96 (b0 + b1 * W64 + 1)))
        else
          if iScale - 1 < 0 then some ScaleOut.ovfl
          else some (ScaleOut.ok (iScale - 1)
            (mag96 7922816251426433759354395034))
      else
        if iScale < 0 then some ScaleOut.ovfl
        else some (ScaleOut.ok iScale (mag96 (b0 + b1 * W64)))) := by
  obtain ⟨f, rfl⟩ : ∃ f, fuel = f + 1 := ⟨fuel - 1, by omega⟩
  unfold scaleResultRound scaleResultRoundGo
  dsimp only
  by_cases hup : pow10 j / 2 < rem ∨
      (rem = pow10 j / 2 ∧ (b0 % 2 = 1 ∨ sticky ≠ 0))
  · rw [if_pos hup, if_pos hup]
    by_cases hwrap : b0 + b1 * W64 + 1 < W96
    · rw [if_pos hwrap]
      have hcarry : add96Buf ⟨b0, b1, 0⟩ 1 =
          (mag96 (b0 + b1 * W64 + 1), 0) := by
        unfold add96Buf AddCarry64 AddCarry32 mag96 low32 hi32
        simp only [W32, W64, W96] at *
        simp only [Prod.mk.injEq, Buf.mk.injEq]
        refine ⟨⟨?_, ?_, ?_⟩, ?_⟩ <;> first | trivial | omega
      rw [hcarry]
      norm_num [scaleResultFinish]
    · rw [if_neg hwrap]
      have hB : b0 = W64 - 1 ∧ b1 = W32 - 1 := by
        simp only [W32, W64, W96] at *
        omega
      have hih : iHiRes = 1 := by
        by_contra hne
        have h0 : iHiRes = 0 := by omega
        have hb10 := h01 h0
        rw [hb10] at hB
        simp [W32] at hB
      obtain ⟨hB0, hB1⟩ := hB
      subst hih hB0 hB1
      have hcarry : add96Buf ⟨W64 - 1, W32 - 1, 0⟩ 1 = (⟨0, 0, 0⟩, 1) := by
        decide
      rw [hcarry]
      norm_num
      have hstep : scaleResultLoop (f + 1) ⟨0, low32 0 + W32, 0⟩ 1 0 0 1
            (iScale - 1) =
          scaleResultRoundGo (scaleResultLoop f)
            ⟨11068046444225730969, 429496729, 0⟩ 1 0 10 6 (iScale - 1) := rfl
      rw [hstep]
      unfold scaleResultRoundGo
      norm_num [add96Buf, AddCarry64, AddCarry32, low32, hi32, W32, W64,
        scaleResultFinish, mag96]
  · rw [if_neg hup, if_neg hup]
    unfold scaleResultFinish
    have hbuf : (⟨b0, b1, 0⟩ : Buf) = mag96 (b0 + b1 * W64) := by
      unfold mag96
      simp only [W32, W64] at *
      simp only [Buf.mk.injEq]
      refine ⟨?_, ?_, ?_⟩ <;> first | trivial | omega
    rw [hbuf]

/-- Claim C2 witness: magnitude 7, divisor 10, remainder 6, scale 5 —
rounds up to 8 and keeps scale 5. -/
theorem C2_witness :
    scaleResultRound 2 ⟨7, 0, 0⟩ 0 0 (pow10 1) 6 5 =
      some (ScaleOut.ok 5 (mag96 8)) := by
  have h := C2_scale_result_rounding 2 7 0 0 0 1 6 5 (by decide) (by decide)
    (by decide) (by decide) (by decide) (by decide) (by decide) (by decide)
  rw [h]
  decide

/-- Scaling fits in 96 bits exactly when the quotient is at most the
corresponding `Vmax` bound. -/
theorem fits96_iff_le_Vmax (q k : Nat) : fits96 q k ↔ q ≤ Vmax k := by
  unfold fits96 Vmax pow10 W96
  rw [Nat.le_div_iff_mul_le (Nat.pos_pow_of_pos k (by norm_num))]
  omega

/-- `fits96` is downward closed in the power. -/
theorem fits96_mono (q : Nat) {j k : Nat} (h : k ≤ j) (hf : fits96 q j) :
    fits96 q k :=
  Nat.lt_of_le_of_lt
    (Nat.mul_le_mul_left q (Nat.pow_le_pow_right (by norm_num) h)) hf

/-- Characterisation of `kBest` by a witness and a maximality bound. -/
theorem kBest_eq_of (q : Nat) (s : Int) (c : Nat) (hc : c ≤ 19)
    (hfit : fits96 q c) (hsc : s + c ≤ 28)
    (hmax : ∀ k, k ≤ 19 → fits96 q k → s + k ≤ 28 → k ≤ c) :
    kBest q s = c := by
  refine Nat.le_antisymm ?_ (Nat.le_findGreatest hc ⟨hfit, hsc⟩)
  by_cases h : kBest q s = 0
  · omega
  · exact hmax _ (Nat.findGreatest_le 19)
      (Nat.findGreatest_of_ne_zero rfl h).1
      (Nat.findGreatest_of_ne_zero rfl h).2

/-- The `PowerOvfl` table pairs encode exactly the `Vmax` bounds. -/
theorem powerOvfl_eq_Vmax : ∀ k < 20, PowerOvflHi k * W32 + PowerOvflLo k = Vmax k := by decide

theorem powerOvflLo_lt_W32 : ∀ k < 20, PowerOvflLo k < W32 := by decide

theorem powerOvflHi_pos : ∀ k < 20, 1 ≤ PowerOvflHi k := by decide

/-- One table step up: anything just above `Hi k` still fits one power
lower. -/
theorem powerOvfl_pred : ∀ k < 20, 1 ≤ k → PowerOvflHi k * W32 + W32 ≤ Vmax (k - 1) + 1 := by decide

theorem ovfl_hi_big : Vmax 1 < 429496730 * W64 := by decide

theorem fits19_below_W32 : (W32 - 1) * pow10 19 < W96 := by decide

/-- Range of the log10-of-2 approximation exponent. -/
theorem logE_range : ∀ m < 64, 1 ≤ (63 - m) * 77 / 256 + 1 ∧ (63 - m) * 77 / 256 + 1 ≤ 19 := by decide

/-- Everything below `2^(m+33)` fits at power `e(m) - 1`. -/
theorem logE_low : ∀ m < 64, 2 ^ (m + 33) ≤ Vmax ((63 - m) * 77 / 256) + 1 := by decide

/-- Nothing at or above `2^(m+32)` fits at power `e(m) + 1`. -/
theorem logE_high : ∀ m < 64, (63 - m) * 77 / 256 + 1 ≤ 18 →
    Vmax ((63 - m) * 77 / 256 + 2) < 2 ^ (m + 32) := by decide

/-- The MSB-estimate branch of `SearchScale64` (decimal_calc.cpp
862–888) computes `kBest`, for a nonzero upper 64 bits `U`, provided
every fitting power also respects the scale cap. -/
theorem msbK_eq (q0 U : Nat) (s : Int) (h0 : q0 < W32) (hU64 : U < W64)
    (hUne : U ≠ 0)
    (hcap : ∀ k, k ≤ 19 → fits96 (U * W32 + q0) k → s + k ≤ 28) :
    (if PowerOvflHi ((63 - BitScanMsb U) * 77 / 256 + 1) < U then
       (63 - BitScanMsb U) * 77 / 256 + 1 - 1
     else if U = PowerOvflHi ((63 - BitScanMsb U) * 77 / 256 + 1) then
       (if PowerOvflLo ((63 - BitScanMsb U) * 77 / 256 + 1) < q0 then
          (63 - BitScanMsb U) * 77 / 256 + 1 - 1
        else (63 - BitScanMsb U) * 77 / 256 + 1)
     else (63 - BitScanMsb U) * 77 / 256 + 1) = kBest (U * W32 + q0) s := by
  set m := BitScanMsb U with hm
  set e := (63 - m) * 77 / 256 + 1 with he
  have hm63 : m ≤ 63 := by
    by_contra hcon
    have h2 : (2 : Nat) ^ 64 ≤ 2 ^ m := Nat.pow_le_pow_right (by norm_num) (by omega)
    have h3 : 2 ^ m ≤ U := by rw [hm]; exact Nat.log2_self_le hUne
    have hW : W64 = 2 ^ 64 := by norm_num [W64]
    omega
  have hUlow : 2 ^ m ≤ U := by rw [hm]; exact Nat.log2_self_le hUne
  have hUhigh : U < 2 ^ (m + 1) := by rw [hm]; exact Nat.lt_log2_self
  have hW32 : W32 = 2 ^ 32 := by norm_num [W32]
  have hQlow : 2 ^ (m + 32) ≤ U * W32 + q0 := by
    have h1 : 2 ^ m * W32 ≤ U * W32 := Nat.mul_le_mul_right _ hUlow
    have h2 : 2 ^ (m + 32) = 2 ^ m * W32 := by rw [hW32, pow_add]
    omega
  have hQhigh : U * W32 + q0 < 2 ^ (m + 33) := by
    have h1 : (U + 1) * W32 ≤ 2 ^ (m + 1) * W32 := Nat.mul_le_mul_right _ hUhigh
    have h2 : 2 ^ (m + 33) = 2 ^ (m + 1) * W32 := by rw [hW32, ← pow_add]
    rw [add_mul, one_mul] at h1
    omega
  have heR : 1 ≤ e ∧ e ≤ 19 := logE_range m (by omega)
  have hfitlow : fits96 (U * W32 + q0) (e - 1) := by
    rw [fits96_iff_le_Vmax]
    have h1 := logE_low m (by omega)
    have h2 : e - 1 = (63 - m) * 77 / 256 := by omega
    rw [h2]
    omega
  have hnofit_succ : e ≤ 18 → ¬ fits96 (U * W32 + q0) (e + 1) := by
    intro he18 hf
    rw [fits96_iff_le_Vmax] at hf
    have h1 := logE_high m (by omega) (by omega)
    have h2 : (63 - m) * 77 / 256 + 2 = e + 1 := by omega
    rw [h2] at h1
    omega
  have hVe : PowerOvflHi e * W32 + PowerOvflLo e = Vmax e := powerOvfl_eq_Vmax e (by omega)
  have hLoe : PowerOvflLo e < W32 := powerOvflLo_lt_W32 e (by omega)
  by_cases hgt : PowerOvflHi e < U
  · rw [if_pos hgt]
    have hnofit_e : ¬ fits96 (U * W32 + q0) e := by
      rw [fits96_iff_le_Vmax]
      have h1 : (PowerOvflHi e + 1) * W32 ≤ U * W32 := Nat.mul_le_mul_right _ hgt
      rw [add_mul, one_mul] at h1
      omega
    refine (kBest_eq_of _ s (e - 1) (by omega) hfitlow
      (hcap _ (by omega) hfitlow) ?_).symm
    intro k hk hfk _
    by_contra hlt
    push_neg at hlt
    exact hnofit_e (fits96_mono _ (by omega) hfk)
  · rw [if_neg hgt]
    by_cases heq : U = PowerOvflHi e
    · rw [if_pos heq]
      have hQeq : U * W32 + q0 = PowerOvflHi e * W32 + q0 := by rw [heq]
      by_cases hq0 : PowerOvflLo e < q0
      · rw [if_pos hq0]
        have hnofit_e : ¬ fits96 (U * W32 + q0) e := by
          rw [fits96_iff_le_Vmax]
          omega
        refine (kBest_eq_of _ s (e - 1) (by omega) hfitlow
          (hcap _ (by omega) hfitlow) ?_).symm
        intro k hk hfk _
        by_contra hlt
        push_neg at hlt
        exact hnofit_e (fits96_mono _ (by omega) hfk)
      · rw [if_neg hq0]
        have hfit_e : fits96 (U * W32 + q0) e := by
          rw [fits96_iff_le_Vmax]
          omega
        refine (kBest_eq_of _ s e (by omega) hfit_e
          (hcap _ (by omega) hfit_e) ?_).symm
        intro k hk hfk _
        by_contra hlt
        push_neg at hlt
        exact hnofit_succ (by omega) (fits96_mono _ (by omega) hfk)
    · rw [if_neg heq]
      have hlt' : U < PowerOvflHi e := by omega
      have hfit_e : fits96 (U * W32 + q0) e := by
        rw [fits96_iff_le_Vmax]
        have h1 : (U + 1) * W32 ≤ PowerOvflHi e * W32 := Nat.mul_le_mul_right _ hlt'
        rw [add_mul, one_mul] at h1
        omega
      refine (kBest_eq_of _ s e (by omega) hfit_e
        (hcap _ (by omega) hfit_e) ?_).symm
      intro k hk hfk _
      by_contra hlt
      push_neg at hlt
      exact hnofit_succ (by omega) (fits96_mono _ (by omega) hfk)

/-- `searchScaleK` agrees with the spec-side `kBest` for well-formed
limbs and any entry scale at most 28. -/
theorem searchScaleK_eq (q0 q1 q2 : Nat) (s : Int)
    (h0 : q0 < W32) (h1 : q1 < W32) (h2 : q2 < W32) (hs : s ≤ 28) :
    searchScaleK q0 q1 q2 s = kBest (q0 + q1 * W32 + q2 * W64) s := by
  have hQ : q0 + q1 * W32 + q2 * W64 = (q2 * W32 + q1) * W32 + q0 := by
    simp only [W32, W64]
    ring
  have hU64 : q2 * W32 + q1 < W64 := by
    simp only [W32, W64] at *
    omega
  rw [hQ]
  unfold searchScaleK
  by_cases hA : 28 ≤ s ∨ OVFL_MAX32_1_HI < q2
  · rw [if_pos hA]
    refine (kBest_eq_of _ s 0 (by omega) ?_ (by omega) ?_).symm
    · rw [fits96_iff_le_Vmax]
      have hv : Vmax 0 = W96 - 1 := by decide
      simp only [W32, W64, W96] at *
      omega
    · intro k hk hfk hsk
      rcases hA with hA | hA
      · omega
      · by_contra hne
        have hf1 : fits96 ((q2 * W32 + q1) * W32 + q0) 1 :=
          fits96_mono _ (by omega) hfk
        rw [fits96_iff_le_Vmax] at hf1
        have h2b := ovfl_hi_big
        simp only [OVFL_MAX32_1_HI] at hA
        simp only [W32, W64] at *
        omega
  · rw [if_neg hA]
    push_neg at hA
    obtain ⟨hs28, hq2⟩ := hA
    dsimp only
    by_cases hpre : 9 < s
    · rw [if_pos hpre]
      set c := (28 - s).toNat with hc
      have hc1 : 1 ≤ c := by omega
      have hc18 : c ≤ 18 := by omega
      have hcs : (c : Int) = 28 - s := by omega
      have hVc : PowerOvflHi c * W32 + PowerOvflLo c = Vmax c := powerOvfl_eq_Vmax c (by omega)
      have hLoc : PowerOvflLo c < W32 := powerOvflLo_lt_W32 c (by omega)
      by_cases hlt : q2 * W32 + q1 < PowerOvflHi c
      · rw [if_pos hlt]
        refine (kBest_eq_of _ s c (by omega) ?_ (by omega) ?_).symm
        · rw [fits96_iff_le_Vmax]
          have h1 : (q2 * W32 + q1 + 1) * W32 ≤ PowerOvflHi c * W32 :=
            Nat.mul_le_mul_right _ hlt
          rw [add_mul, one_mul] at h1
          omega
        · intro k hk hfk hsk
          omega
      · rw [if_neg hlt]
        by_cases heq : q2 * W32 + q1 = PowerOvflHi c
        · rw [if_pos heq]
          by_cases hq0 : PowerOvflLo c < q0
          · rw [if_pos hq0]
            have hnofit : ¬ fits96 ((q2 * W32 + q1) * W32 + q0) c := by
              rw [fits96_iff_le_Vmax, heq]
              omega
            have hfitp : fits96 ((q2 * W32 + q1) * W32 + q0) (c - 1) := by
              rw [fits96_iff_le_Vmax, heq]
              have h1 := powerOvfl_pred c (by omega) hc1
              omega
            refine (kBest_eq_of _ s (c - 1) (by omega) hfitp (by omega) ?_).symm
            intro k hk hfk hsk
            by_contra hkk
            push_neg at hkk
            have hkc : k = c := by omega
            exact hnofit (hkc ▸ hfk)
          · rw [if_neg hq0]
            have hfit : fits96 ((q2 * W32 + q1) * W32 + q0) c := by
              rw [fits96_iff_le_Vmax, heq]
              omega
            refine (kBest_eq_of _ s c (by omega) hfit (by omega) ?_).symm
            intro k hk hfk hsk
            omega
        · rw [if_neg heq]
          have hgt : PowerOvflHi c < q2 * W32 + q1 := by omega
          have hnofit_c : ¬ fits96 ((q2 * W32 + q1) * W32 + q0) c := by
            rw [fits96_iff_le_Vmax]
            have h1 : (PowerOvflHi c + 1) * W32 ≤ (q2 * W32 + q1) * W32 :=
              Nat.mul_le_mul_right _ hgt
            rw [add_mul, one_mul] at h1
            omega
          have hUne : q2 * W32 + q1 ≠ 0 := by
            have := powerOvflHi_pos c (by omega)
            omega
          rw [if_pos hUne]
          refine msbK_eq q0 (q2 * W32 + q1) s h0 hU64 hUne ?_
          intro k hk hfk
          by_contra hcon
          push_neg at hcon
          exact hnofit_c (fits96_mono _ (by omega) hfk)
    · rw [if_neg hpre]
      by_cases hUne : q2 * W32 + q1 ≠ 0
      · rw [if_pos hUne]
        exact msbK_eq q0 _ s h0 hU64 hUne (fun k hk hfk => by omega)
      · rw [if_neg hUne]
        push_neg at hUne
        refine (kBest_eq_of _ s 19 (by omega) ?_ (by omega) (fun k hk _ _ => hk)).symm
        have h3 : (q2 * W32 + q1) * W32 + q0 = q0 := by
          rw [hUne]
          ring
        rw [h3]
        unfold fits96
        calc q0 * pow10 19 ≤ (W32 - 1) * pow10 19 :=
              Nat.mul_le_mul_right _ (by omega)
          _ < W96 := fits19_below_W32

/-- Counterexample to claim C3: on the nonzero quotient 1 at scale -28,
`SearchScale64` returns 19 even though no power of ten at most 19 can
bring the scale up to 0 (the spec demands -1 in that situation). -/
theorem C3_counterexample :
    SearchScale64 1 0 0 (-28) = 19 ∧
      ¬ canReachZero (1 + 0 * W32 + 0 * W64) (-28) ∧ (19 : Int) ≠ -1 := by
  decide

/-- C3 (amended): for every nonzero well-formed 96-bit quotient and
scale in [-28, 28], `SearchScale64` returns the maximum `k ∈ [0, 19]`
with `quotient * 10^k < 2^96` and `scale + k ≤ 28`, except that it
returns -1 when that maximum cannot lift the scale to 0 *and* is not
19: when the maximum is 19 it is returned even if `scale + 19 < 0`. -/
theorem C3_search_scale (q0 q1 q2 : Nat) (s : Int)
    (h0 : q0 < W32) (h1 : q1 < W32) (h2 : q2 < W32)
    (hnz : q0 + q1 * W32 + q2 * W64 ≠ 0)
    (hs1 : -28 ≤ s) (hs2 : s ≤ 28) :
    SearchScale64 q0 q1 q2 s =
      if (kBest (q0 + q1 * W32 + q2 * W64) s : Int) + s < 0 ∧
          kBest (q0 + q1 * W32 + q2 * W64) s ≠ 19 then -1
      else (kBest (q0 + q1 * W32 + q2 * W64) s : Int) := by
  unfold SearchScale64 haveScale
  rw [searchScaleK_eq q0 q1 q2 s h0 h1 h2 hs2]

/-- Witness for C3 at the concrete quotient 3, scale 5. -/
theorem C3_witness :
    SearchScale64 3 0 0 5 =
      if (kBest (3 + 0 * W32 + 0 * W64) 5 : Int) + 5 < 0 ∧
          kBest (3 + 0 * W32 + 0 * W64) 5 ≠ 19 then -1
      else (kBest (3 + 0 * W32 + 0 * W64) 5 : Int) :=
  C3_search_scale 3 0 0 5 (by decide) (by decide) (by decide) (by decide)
    (by decide) (by decide)

theorem AddCarry64_comm (c a b : Nat) : AddCarry64 c a b = AddCarry64 c b a := by
  unfold AddCarry64
  rw [Nat.add_right_comm]

theorem AddCarry32_comm (c a b : Nat) : AddCarry32 c a b = AddCarry32 c b a := by
  unfold AddCarry32
  rw [Nat.add_right_comm]

/-- The aligned addition path is symmetric in its operands. -/
theorem addAligned_add_comm (lLo lHi rLo rHi sign scale : Nat) :
    addAligned lLo lHi rLo rHi sign scale 0 =
      addAligned rLo rHi lLo lHi sign scale 0 := by
  have h : ¬((0 : Nat) ≠ 0) := by decide
  simp only [addAligned, if_neg h]
  rw [AddCarry64_comm 0 lLo rLo, AddCarry32_comm _ lHi rHi]

/-- The aligned subtraction path computes the absolute difference of the
mantissas, keeping the minuend sign or flipping it on wrap-around. -/
theorem addAligned_sub_eq (lLo lHi rLo rHi s scale : Nat)
    (h1 : lLo < W64) (h2 : lHi < W32) (h3 : rLo < W64) (h4 : rHi < W32) :
    addAligned lLo lHi rLo rHi s scale 128 =
      if rHi * W64 + rLo ≤ lHi * W64 + lLo then
        Except.ok ⟨(lHi * W64 + lLo - (rHi * W64 + rLo)) % W64,
          (lHi * W64 + lLo - (rHi * W64 + rLo)) / W64, scale, s⟩
      else
        Except.ok ⟨(rHi * W64 + rLo - (lHi * W64 + lLo)) % W64,
          (rHi * W64 + rLo - (lHi * W64 + lLo)) / W64, scale, s ^^^ 128⟩ := by
  simp only [addAligned, SubBorrow64, SubBorrow32, signFlip]
  rw [if_pos (by decide : (128 : Nat) ≠ 0)]
  by_cases hcmp : rHi * W64 + rLo ≤ lHi * W64 + lLo
  · rw [if_pos hcmp]
    split_ifs <;>
      simp only [Except.ok.injEq, DECIMAL.mk.injEq, W32, W64] at * <;>
      first
        | exact ⟨by omega, by omega, trivial, trivial⟩
        | (exfalso; omega)
  · rw [if_neg hcmp]
    split_ifs <;>
      simp only [Except.ok.injEq, DECIMAL.mk.injEq, W32, W64] at * <;>
      first
        | exact ⟨by omega, by omega, trivial, trivial⟩
        | (exfalso; omega)

/-- The operand-swap behaviour of the sign mask computed at the top of
`DecimalAddSub` (decimal_calc.cpp 443–453). -/
theorem sign_mask_comm (x y : Nat) (hx : x = 0 ∨ x = 128) (hy : y = 0 ∨ y = 128) :
    (0 ^^^ ((y ^^^ x) &&& 128)) = (0 ^^^ ((x ^^^ y) &&& 128)) ∧
      x ^^^ (0 ^^^ ((y ^^^ x) &&& 128)) = y := by
  rcases hx with h | h <;> rcases hy with h' | h' <;> subst h <;> subst h' <;> decide

/-- Counterexample to claim C8: adding +5 and -5 in either order gives
a zero mantissa, but the stored sign byte is the first operand's, so
the two results differ as stored values. -/
theorem C8_counterexample :
    DecimalAddSub ⟨5, 0, 0, 0⟩ ⟨5, 0, 0, 128⟩ 0 = Except.ok ⟨0, 0, 0, 0⟩ ∧
      DecimalAddSub ⟨5, 0, 0, 128⟩ ⟨5, 0, 0, 0⟩ 0 = Except.ok ⟨0, 0, 0, 128⟩ ∧
      (⟨0, 0, 0, 0⟩ : DECIMAL) ≠ ⟨0, 0, 0, 128⟩ := by
  decide

/-- C8 (amended): for well-formed operands, `Add(L,R)` and `Add(R,L)`
agree on mantissa and scale whenever both succeed, and agree on the
sign byte whenever the result mantissa is nonzero; a zero result may
carry either sign depending on operand order. -/
theorem C8_add_comm (L R a b : DECIMAL) (hL : wfDec L) (hR : wfDec R)
    (ha : DecimalAddSub L R 0 = Except.ok a)
    (hb : DecimalAddSub R L 0 = Except.ok b) :
    a.lo64 = b.lo64 ∧ a.hi32 = b.hi32 ∧ a.scale = b.scale ∧
      (mantissa a ≠ 0 → a.sign = b.sign) := by
  obtain ⟨hLlo, hLhi, hLsc, hLsgn⟩ := hL
  obtain ⟨hRlo, hRhi, hRsc, hRsgn⟩ := hR
  simp only [DecimalAddSub] at ha hb
  by_cases hsc : R.scale = L.scale
  · rw [if_pos hsc] at ha
    rw [if_pos hsc.symm] at hb
    rw [hsc] at hb
    rcases hLsgn with hL0 | hL0 <;> rcases hRsgn with hR0 | hR0 <;>
        rw [hL0, hR0] at ha hb
    · rw [show (0 : Nat) ^^^ ((0 ^^^ 0) &&& 128) = 0 from by decide] at ha hb
      rw [addAligned_add_comm R.lo64 R.hi32 L.lo64 L.hi32 0 L.scale] at hb
      rw [ha] at hb
      injection hb with h
      subst h
      exact ⟨rfl, rfl, rfl, fun _ => rfl⟩
    · rw [show (0 : Nat) ^^^ ((128 ^^^ 0) &&& 128) = 128 from by decide] at ha
      rw [show (0 : Nat) ^^^ ((0 ^^^ 128) &&& 128) = 128 from by decide] at hb
      rw [addAligned_sub_eq L.lo64 L.hi32 R.lo64 R.hi32 0 L.scale
        hLlo hLhi hRlo hRhi] at ha
      rw [addAligned_sub_eq R.lo64 R.hi32 L.lo64 L.hi32 128 L.scale
        hRlo hRhi hLlo hLhi] at hb
      by_cases hc1 : R.hi32 * W64 + R.lo64 ≤ L.hi32 * W64 + L.lo64 <;>
          by_cases hc2 : L.hi32 * W64 + L.lo64 ≤ R.hi32 * W64 + R.lo64
      · rw [if_pos hc1] at ha
        rw [if_pos hc2] at hb
        injection ha with h
        subst h
        injection hb with h
        subst h
        have hz : L.hi32 * W64 + L.lo64 = R.hi32 * W64 + R.lo64 := by omega
        refine ⟨?_, ?_, rfl, fun hm => absurd ?_ hm⟩ <;>
          (first
            | (dsimp only; simp only [W64] at hz ⊢; omega)
            | (simp only [mantissa]; simp only [W64] at hz ⊢; omega))
      · rw [if_pos hc1] at ha
        rw [if_neg hc2] at hb
        injection ha with h
        subst h
        injection hb with h
        subst h
        exact ⟨rfl, rfl, rfl, fun _ => by dsimp only; decide⟩
      · rw [if_neg hc1] at ha
        rw [if_pos hc2] at hb
        injection ha with h
        subst h
        injection hb with h
        subst h
        exact ⟨rfl, rfl, rfl, fun _ => by dsimp only; decide⟩
      · exact absurd (by omega : R.hi32 * W64 + R.lo64 ≤ L.hi32 * W64 + L.lo64) hc1
    · rw [show (0 : Nat) ^^^ ((0 ^^^ 128) &&& 128) = 128 from by decide] at ha
      rw [show (0 : Nat) ^^^ ((128 ^^^ 0) &&& 128) = 128 from by decide] at hb
      rw [addAligned_sub_eq L.lo64 L.hi32 R.lo64 R.hi32 128 L.scale
        hLlo hLhi hRlo hRhi] at ha
      rw [addAligned_sub_eq R.lo64 R.hi32 L.lo64 L.hi32 0 L.scale
        hRlo hRhi hLlo hLhi] at hb
      by_cases hc1 : R.hi32 * W64 + R.lo64 ≤ L.hi32 * W64 + L.lo64 <;>
          by_cases hc2 : L.hi32 * W64 + L.lo64 ≤ R.hi32 * W64 + R.lo64
      · rw [if_pos hc1] at ha
        rw [if_pos hc2] at hb
        injection ha with h
        subst h
        injection hb with h
        subst h
        have hz : L.hi32 * W64 + L.lo64 = R.hi32 * W64 + R.lo64 := by omega
        refine ⟨?_, ?_, rfl, fun hm => absurd ?_ hm⟩ <;>
          (first
            | (dsimp only; simp only [W64] at hz ⊢; omega)
            | (simp only [mantissa]; simp only [W64] at hz ⊢; omega))
      · rw [if_pos hc1] at ha
        rw [if_neg hc2] at hb
        injection ha with h
        subst h
        injection hb with h
        subst h
        exact ⟨rfl, rfl, rfl, fun _ => by dsimp only; decide⟩
      · rw [if_neg hc1] at ha
        rw [if_pos hc2] at hb
        injection ha with h
        subst h
        injection hb with h
        subst h
        exact ⟨rfl, rfl, rfl, fun _ => by dsimp only; decide⟩
      · exact absurd (by omega : R.hi32 * W64 + R.lo64 ≤ L.hi32 * W64 + L.lo64) hc1
    · rw [show (0 : Nat) ^^^ ((128 ^^^ 128) &&& 128) = 0 from by decide] at ha hb
      rw [addAligned_add_comm R.lo64 R.hi32 L.lo64 L.hi32 128 L.scale] at hb
      rw [ha] at hb
      injection hb with h
      subst h
      exact ⟨rfl, rfl, rfl, fun _ => rfl⟩
  · rw [if_neg hsc] at ha
    rw [if_neg (fun h => hsc h.symm)] at hb
    by_cases hlt : (R.scale : Int) - L.scale < 0
    · rw [if_pos hlt] at ha
      rw [if_neg (by omega : ¬ ((L.scale : Int) - R.scale < 0))] at hb
      rw [show (-((R.scale : Int) - L.scale)).toNat = ((L.scale : Int) - R.scale).toNat
        from by omega] at ha
      rw [(sign_mask_comm L.sign R.sign hLsgn hRsgn).2] at ha
      rw [← (sign_mask_comm L.sign R.sign hLsgn hRsgn).1] at hb
      rw [ha] at hb
      injection hb with h
      subst h
      exact ⟨rfl, rfl, rfl, fun _ => rfl⟩
    · rw [if_neg hlt] at ha
      rw [if_pos (by omega : (L.scale : Int) - R.scale < 0)] at hb
      rw [show (-((L.scale : Int) - R.scale)).toNat = ((R.scale : Int) - L.scale).toNat
        from by omega] at hb
      rw [(sign_mask_comm R.sign L.sign hRsgn hLsgn).2] at hb
      rw [← (sign_mask_comm R.sign L.sign hRsgn hLsgn).1] at ha
      rw [ha] at hb
      injection hb with h
      subst h
      exact ⟨rfl, rfl, rfl, fun _ => rfl⟩

/-- Witness for C8 at 1.5 + 0.25 in both orders. -/
theorem C8_witness :
    (⟨15, 0, 1, 0⟩ : DECIMAL).lo64 < W64 ∧
      DecimalAddSub ⟨15, 0, 1, 0⟩ ⟨25, 0, 2, 0⟩ 0 = Except.ok ⟨175, 0, 2, 0⟩ ∧
      (175 : Nat) = 175 ∧ (0 : Nat) = 0 ∧ (2 : Nat) = 2 ∧
      ((⟨175, 0, 2, 0⟩ : DECIMAL).sign = (⟨175, 0, 2, 0⟩ : DECIMAL).sign) :=
  ⟨by decide, by decide,
    (C8_add_comm ⟨15, 0, 1, 0⟩ ⟨25, 0, 2, 0⟩ ⟨175, 0, 2, 0⟩ ⟨175, 0, 2, 0⟩
      (by decide) (by decide) (by decide) (by decide)).1,
    (C8_add_comm ⟨15, 0, 1, 0⟩ ⟨25, 0, 2, 0⟩ ⟨175, 0, 2, 0⟩ ⟨175, 0, 2, 0⟩
      (by decide) (by decide) (by decide) (by decide)).2.1,
    (C8_add_comm ⟨15, 0, 1, 0⟩ ⟨25, 0, 2, 0⟩ ⟨175, 0, 2, 0⟩ ⟨175, 0, 2, 0⟩
      (by decide) (by decide) (by decide) (by decide)).2.2.1,
    (C8_add_comm ⟨15, 0, 1, 0⟩ ⟨25, 0, 2, 0⟩ ⟨175, 0, 2, 0⟩ ⟨175, 0, 2, 0⟩
      (by decide) (by decide) (by decide) (by decide)).2.2.2 (by decide)⟩

/-- A zero return of `SearchScale64` implies the scale is already
non-negative (otherwise the `HaveScale` exit would have produced -1). -/
theorem searchScale_zero_nonneg (q0 q1 q2 : Nat) (s : Int)
    (h : SearchScale64 q0 q1 q2 s = 0) : 0 ≤ s := by
  unfold SearchScale64 haveScale at h
  split at h
  · exact absurd h (by decide)
  · next hn =>
    push_neg at hn
    have hk : searchScaleK q0 q1 q2 s = 0 := by omega
    by_contra hcon
    push_neg at hcon
    have h19 := hn (by omega)
    omega

/-- A positive return of `SearchScale64` respects the scale cap 28 for
well-formed limbs. -/
theorem searchScale_pos_cap (q0 q1 q2 : Nat) (s c : Int)
    (h0 : q0 < W32) (h1 : q1 < W32) (h2 : q2 < W32) (hs : s ≤ 28)
    (hc : SearchScale64 q0 q1 q2 s = c) (hge : 1 ≤ c) : s + c ≤ 28 := by
  unfold SearchScale64 haveScale at hc
  rw [searchScaleK_eq q0 q1 q2 s h0 h1 h2 hs] at hc
  split at hc
  · omega
  · have hne : kBest (q0 + q1 * W32 + q2 * W64) s ≠ 0 := by omega
    have hP : fits96 (q0 + q1 * W32 + q2 * W64)
        (kBest (q0 + q1 * W32 + q2 * W64) s) ∧
        s + (kBest (q0 + q1 * W32 + q2 * W64) s : Int) ≤ 28 :=
      Nat.findGreatest_of_ne_zero
        (rfl : Nat.findGreatest
          (fun k => fits96 (q0 + q1 * W32 + q2 * W64) k ∧ s + k ≤ 28) 19 =
          kBest (q0 + q1 * W32 + q2 * W64) s) hne
    omega

/-- `divHaveScale32Go` hands its continuation 32-bit limbs and the
incremented scale. -/
theorem divGo32_inv
    (k : Nat → Nat → Nat → Nat → Int → Bool → Nat → Except DErr DivSt)
    (hk : ∀ q0 q1 q2 rem s f den, q0 < W32 → q1 < W32 → q2 < W32 →
      -28 ≤ s → s ≤ 28 → ∀ st, k q0 q1 q2 rem s f den = .ok st → divInv st)
    (q0 q1 q2 rem : Nat) (s : Int) (f : Bool) (den : Nat) (cur : Int)
    (hcur : 0 ≤ cur) (hlo : -28 ≤ s) (hhi : s + cur ≤ 28)
    (st : DivSt) (h : divHaveScale32Go k q0 q1 q2 rem s f den cur = .ok st) :
    divInv st := by
  simp only [divHaveScale32Go] at h
  split at h
  · exact Except.noConfusion h
  · refine hk _ _ _ _ _ _ _ ?_ ?_ ?_ (by omega) (by omega) st h <;>
      simp only [add96Q32, AddCarry32, W32] <;> omega

/-- `divHaveScale64Go` hands its continuation 32-bit limbs and a scale
incremented by at most `min cur 9`. -/
theorem divGo64_inv
    (k : Nat → Nat → Nat → Nat → Int → Bool → Nat → Except DErr DivSt)
    (hk : ∀ q0 q1 q2 rem s f den, q0 < W32 → q1 < W32 → q2 < W32 →
      -28 ≤ s → s ≤ 28 → ∀ st, k q0 q1 q2 rem s f den = .ok st → divInv st)
    (q0 q1 q2 rem : Nat) (s : Int) (f : Bool) (den : Nat) (cur : Int)
    (hcur : 0 ≤ cur) (hlo : -28 ≤ s) (hhi : s + min cur 9 ≤ 28)
    (st : DivSt) (h : divHaveScale64Go k q0 q1 q2 rem s f den cur = .ok st) :
    divInv st := by
  simp only [divHaveScale64Go] at h
  split at h
  · exact Except.noConfusion h
  · refine hk _ _ _ _ _ _ _ ?_ ?_ ?_ (by omega) (by omega) st h <;>
      simp only [add96Q32, AddCarry32, W32] <;> omega

/-- `divHaveScale96Go` hands its continuation 32-bit limbs and the
incremented scale. -/
theorem divGo96_inv
    (k : Nat → Nat → Nat → Nat → Nat → Nat → Int → Bool → Nat → Nat →
      Except DErr DivSt)
    (hk : ∀ q0 q1 q2 r0 r1 r2 s f den01 den2, q0 < W32 → q1 < W32 →
      q2 < W32 → -28 ≤ s → s ≤ 28 →
      ∀ st, k q0 q1 q2 r0 r1 r2 s f den01 den2 = .ok st → divInv st)
    (q0 q1 q2 r0 r1 r2 : Nat) (s : Int) (f : Bool) (den01 den2 : Nat)
    (cur : Int) (hcur : 0 ≤ cur) (hlo : -28 ≤ s) (hhi : s + cur ≤ 28)
    (st : DivSt)
    (h : divHaveScale96Go k q0 q1 q2 r0 r1 r2 s f den01 den2 cur = .ok st) :
    divInv st := by
  simp only [divHaveScale96Go] at h
  split at h
  · exact Except.noConfusion h
  · refine hk _ _ _ _ _ _ _ _ _ _ ?_ ?_ ?_ (by omega) (by omega) st h <;>
      simp only [add96Q64, AddCarry64, AddCarry32, low32, hi32, W32] <;> omega

/-- `SearchScale64` returns either -1 or a non-negative power. -/
theorem searchScale_range (q0 q1 q2 : Nat) (s : Int) :
    SearchScale64 q0 q1 q2 s = -1 ∨ 0 ≤ SearchScale64 q0 q1 q2 s := by
  unfold SearchScale64 haveScale
  split
  · exact Or.inl rfl
  · exact Or.inr (by omega)

/-- The 32-bit-divisor quotient loop keeps its limbs in 32 bits and
exits with a scale in [0, 28]. -/
theorem divLoop32_inv (fuel : Nat) :
    ∀ q0 q1 q2 rem : Nat, ∀ s : Int, ∀ f : Bool, ∀ den : Nat,
      q0 < W32 → q1 < W32 → q2 < W32 → -28 ≤ s → s ≤ 28 →
      ∀ st, divLoop32 fuel q0 q1 q2 rem s f den = .ok st → divInv st := by
  induction fuel with
  | zero =>
    intro q0 q1 q2 rem s f den h0 h1 h2 hlo hhi st h
    exact Except.noConfusion h
  | succ n ih =>
    intro q0 q1 q2 rem s f den h0 h1 h2 hlo hhi st h
    simp only [divLoop32] at h
    split at h
    · split at h
      · next hneg =>
        exact divGo32_inv _ ih q0 q1 q2 rem s f den _ (by omega) hlo
          (by omega) st h
      · next hpos =>
        injection h with h
        subst h
        exact ⟨h0, h1, h2, by dsimp only; omega, hhi⟩
    · split at h
      · next hcur0 =>
        have hs0 : 0 ≤ s := searchScale_zero_nonneg _ _ _ _ hcur0
        split at h <;> (injection h with h; subst h)
        · refine ⟨?_, ?_, ?_, by dsimp only; omega, by dsimp only; omega⟩ <;>
            simp only [add96Q32, AddCarry32, W32] <;> omega
        · exact ⟨h0, h1, h2, hs0, hhi⟩
      · split at h
        · exact Except.noConfusion h
        · next hc0 hcm1 =>
          have hge1 : 1 ≤ SearchScale64 q0 q1 q2 s := by
            rcases searchScale_range q0 q1 q2 s with hr | hr <;> omega
          have hcap := searchScale_pos_cap q0 q1 q2 s _ h0 h1 h2 hhi rfl hge1
          exact divGo32_inv _ ih q0 q1 q2 rem s true den _ (by omega) hlo
            (by omega) st h

/-- The 64-bit-divisor quotient loop keeps its limbs in 32 bits and
exits with a scale in [0, 28]. -/
theorem divLoop64_inv (fuel : Nat) :
    ∀ q0 q1 q2 rem : Nat, ∀ s : Int, ∀ f : Bool, ∀ den : Nat,
      q0 < W32 → q1 < W32 → q2 < W32 → -28 ≤ s → s ≤ 28 →
      ∀ st, divLoop64 fuel q0 q1 q2 rem s f den = .ok st → divInv st := by
  induction fuel with
  | zero =>
    intro q0 q1 q2 rem s f den h0 h1 h2 hlo hhi st h
    exact Except.noConfusion h
  | succ n ih =>
    intro q0 q1 q2 rem s f den h0 h1 h2 hlo hhi st h
    simp only [divLoop64] at h
    split at h
    · split at h
      · next hneg =>
        exact divGo64_inv _ ih q0 q1 q2 rem s f den _ (by omega) hlo
          (by omega) st h
      · next hpos =>
        injection h with h
        subst h
        exact ⟨h0, h1, h2, by dsimp only; omega, hhi⟩
    · split at h
      · next hcur0 =>
        have hs0 : 0 ≤ s := searchScale_zero_nonneg _ _ _ _ hcur0
        split at h <;> (injection h with h; subst h)
        · refine ⟨?_, ?_, ?_, by dsimp only; omega, by dsimp only; omega⟩ <;>
            simp only [add96Q32, AddCarry32, W32] <;> omega
        · exact ⟨h0, h1, h2, hs0, hhi⟩
      · split at h
        · exact Except.noConfusion h
        · next hc0 hcm1 =>
          have hge1 : 1 ≤ SearchScale64 q0 q1 q2 s := by
            rcases searchScale_range q0 q1 q2 s with hr | hr <;> omega
          have hcap := searchScale_pos_cap q0 q1 q2 s _ h0 h1 h2 hhi rfl hge1
          exact divGo64_inv _ ih q0 q1 q2 rem s true den _ (by omega) hlo
            (by omega) st h

/-- The 96-bit-divisor quotient loop keeps its limbs in 32 bits and
exits with a scale in [0, 28]. -/
theorem divLoop96_inv (fuel : Nat) :
    ∀ q0 q1 q2 r0 r1 r2 : Nat, ∀ s : Int, ∀ f : Bool, ∀ den01 den2 : Nat,
      q0 < W32 → q1 < W32 → q2 < W32 → -28 ≤ s → s ≤ 28 →
      ∀ st, divLoop96 fuel q0 q1 q2 r0 r1 r2 s f den01 den2 = .ok st →
        divInv st := by
  induction fuel with
  | zero =>
    intro q0 q1 q2 r0 r1 r2 s f den01 den2 h0 h1 h2 hlo hhi st h
    exact Except.noConfusion h
  | succ n ih =>
    intro q0 q1 q2 r0 r1 r2 s f den01 den2 h0 h1 h2 hlo hhi st h
    simp only [divLoop96] at h
    split at h
    · split at h
      · next hneg =>
        exact divGo96_inv _ ih q0 q1 q2 r0 r1 r2 s f den01 den2 _ (by omega)
          hlo (by omega) st h
      · next hpos =>
        injection h with h
        subst h
        exact ⟨h0, h1, h2, by dsimp only; omega, hhi⟩
    · split at h
      · next hcur0 =>
        have hs0 : 0 ≤ s := searchScale_zero_nonneg _ _ _ _ hcur0
        split at h
        · injection h with h
          subst h
          refine ⟨?_, ?_, ?_, by dsimp only; omega, by dsimp only; omega⟩ <;>
            simp only [add96Q32, AddCarry32, W32] <;> omega
        · split at h <;> (injection h with h; subst h)
          · refine ⟨?_, ?_, ?_, by dsimp only; omega, by dsimp only; omega⟩ <;>
              simp only [add96Q32, AddCarry32, W32] <;> omega
          · exact ⟨h0, h1, h2, hs0, hhi⟩
      · split at h
        · exact Except.noConfusion h
        · next hc0 hcm1 =>
          have hge1 : 1 ≤ SearchScale64 q0 q1 q2 s := by
            rcases searchScale_range q0 q1 q2 s with hr | hr <;> omega
          have hcap := searchScale_pos_cap q0 q1 q2 s _ h0 h1 h2 hhi rfl hge1
          exact divGo96_inv _ ih q0 q1 q2 r0 r1 r2 s true den01 den2 _
            (by omega) hlo (by omega) st h

/-- XOR of two sign bytes is again a sign byte. -/
theorem xor_sign_mem (x y : Nat) (hx : x = 0 ∨ x = 128)
    (hy : y = 0 ∨ y = 128) : x ^^^ y = 0 ∨ x ^^^ y = 128 := by
  rcases hx with h | h <;> rcases hy with h' | h' <;> subst h <;> subst h' <;>
    decide

/-- `Div96By32` leaves all three quotient limbs below `2^32`. -/
theorem Div96By32_limbs (l0 l1 l2 den : Nat) :
    (Div96By32 l0 l1 l2 den).1.1 < W32 ∧
      (Div96By32 l0 l1 l2 den).1.2.1 < W32 ∧
      (Div96By32 l0 l1 l2 den).1.2.2 < W32 := by
  unfold Div96By32 DivMod64By32 DivMod32By32
  split_ifs <;> refine ⟨?_, ?_, ?_⟩ <;> dsimp only <;> simp only [W32] <;>
    omega

/-- One unscale attempt preserves 32-bit limbs and the scale range. -/
theorem unscaleTry_inv (m p : Nat) (dec : Int) (q0 q1 q2 : Nat) (s : Int)
    (h0 : q0 < W32) (h1 : q1 < W32) (h2 : q2 < W32) (hs0 : 0 ≤ s)
    (hs : s ≤ 28) (hdec : 0 ≤ dec) :
    (unscaleTry m p dec q0 q1 q2 s).1 < W32 ∧
      (unscaleTry m p dec q0 q1 q2 s).2.1 < W32 ∧
      (unscaleTry m p dec q0 q1 q2 s).2.2.1 < W32 ∧
      0 ≤ (unscaleTry m p dec q0 q1 q2 s).2.2.2 ∧
      (unscaleTry m p dec q0 q1 q2 s).2.2.2 ≤ 28 := by
  have hd := Div96By32_limbs q0 q1 q2 p
  simp only [unscaleTry]
  split_ifs with hg hr
  · exact ⟨hd.1, hd.2.1, hd.2.2, by dsimp only; omega, by dsimp only; omega⟩
  · exact ⟨h0, h1, h2, hs0, hs⟩
  · exact ⟨h0, h1, h2, hs0, hs⟩

/-- The `10^8` unscale loop preserves 32-bit limbs and the scale range. -/
theorem unscaleLoop8_inv (fuel : Nat) :
    ∀ q0 q1 q2 : Nat, ∀ s : Int, q0 < W32 → q1 < W32 → q2 < W32 →
      0 ≤ s → s ≤ 28 →
      (unscaleLoop8 fuel q0 q1 q2 s).1 < W32 ∧
        (unscaleLoop8 fuel q0 q1 q2 s).2.1 < W32 ∧
        (unscaleLoop8 fuel q0 q1 q2 s).2.2.1 < W32 ∧
        0 ≤ (unscaleLoop8 fuel q0 q1 q2 s).2.2.2 ∧
        (unscaleLoop8 fuel q0 q1 q2 s).2.2.2 ≤ 28 := by
  induction fuel with
  | zero =>
    intro q0 q1 q2 s h0 h1 h2 hs0 hs
    exact ⟨h0, h1, h2, hs0, hs⟩
  | succ n ih =>
    intro q0 q1 q2 s h0 h1 h2 hs0 hs
    simp only [unscaleLoop8]
    split_ifs with hg hr
    · have hd := Div96By32_limbs q0 q1 q2 100000000
      exact ih _ _ _ _ hd.1 hd.2.1 hd.2.2 (by omega) (by omega)
    · exact ⟨h0, h1, h2, hs0, hs⟩
    · exact ⟨h0, h1, h2, hs0, hs⟩

/-- The full unscale block preserves 32-bit limbs and the scale range. -/
theorem unscale_inv (q0 q1 q2 : Nat) (s : Int) (h0 : q0 < W32)
    (h1 : q1 < W32) (h2 : q2 < W32) (hs0 : 0 ≤ s) (hs : s ≤ 28) :
    (unscale q0 q1 q2 s).1 < W32 ∧ (unscale q0 q1 q2 s).2.1 < W32 ∧
      (unscale q0 q1 q2 s).2.2.1 < W32 ∧ 0 ≤ (unscale q0 q1 q2 s).2.2.2 ∧
      (unscale q0 q1 q2 s).2.2.2 ≤ 28 := by
  unfold unscale
  have h8 := unscaleLoop8_inv 8 q0 q1 q2 s h0 h1 h2 hs0 hs
  have h4 := unscaleTry_inv 16 10000 4 _ _ _ _ h8.1 h8.2.1 h8.2.2.1
    h8.2.2.2.1 h8.2.2.2.2 (by omega)
  have h2' := unscaleTry_inv 4 100 2 _ _ _ _ h4.1 h4.2.1 h4.2.2.1
    h4.2.2.2.1 h4.2.2.2.2 (by omega)
  exact unscaleTry_inv 2 10 1 _ _ _ _ h2'.1 h2'.2.1 h2'.2.2.1
    h2'.2.2.2.1 h2'.2.2.2.2 (by omega)

/-- `divFinish` produces an invariant-respecting decimal from any state
satisfying the loop invariant. -/
theorem divFinish_inv (L R : DECIMAL) (hsL : L.sign = 0 ∨ L.sign = 128)
    (hsR : R.sign = 0 ∨ R.sign = 128) (stE : Except DErr DivSt)
    (hst : ∀ st, stE = .ok st → divInv st) (d : DECIMAL)
    (h : divFinish L R stE = .ok d) : resInv d := by
  unfold divFinish at h
  match stE, h with
  | .error e, h => exact Except.noConfusion h
  | .ok st, h =>
    have hi := hst st rfl
    obtain ⟨hq0, hq1, hq2, hs0, hs⟩ := hi
    have hu : ∀ u : Nat × Nat × Nat × Int,
        (if st.fUnscale then unscale st.q0 st.q1 st.q2 st.iScale
         else (st.q0, st.q1, st.q2, st.iScale)) = u →
        u.1 < W32 ∧ u.2.1 < W32 ∧ u.2.2.1 < W32 ∧ 0 ≤ u.2.2.2 ∧
          u.2.2.2 ≤ 28 := by
      intro u hui
      split at hui
      · rw [← hui]
        exact unscale_inv _ _ _ _ hq0 hq1 hq2 hs0 hs
      · rw [← hui]
        exact ⟨hq0, hq1, hq2, hs0, hs⟩
    have hub := hu _ rfl
    try dsimp only at h
    injection h with h
    subst h
    refine ⟨?_, ?_, ?_, ?_⟩
    · try dsimp only
      unfold byteOfInt
      omega
    · simp only [mantissa]
      try dsimp only
      simp only [W32, W64, W96] at hub ⊢
      omega
    · try dsimp only
      exact xor_sign_mem _ _ hsL hsR
    · unfold flagsWord
      try dsimp only
      omega

/-- Every successful `DecimalDiv` result satisfies the invariants. -/
theorem DecimalDiv_inv (L R d : DECIMAL) (hL : wfDec L) (hR : wfDec R)
    (h : DecimalDiv L R = .ok d) : resInv d := by
  obtain ⟨hLlo, hLhi, hLsc, hLsgn⟩ := hL
  obtain ⟨hRlo, hRhi, hRsc, hRsgn⟩ := hR
  unfold DecimalDiv at h
  refine divFinish_inv L R hLsgn hRsgn _ ?_ d h
  intro st hst
  dsimp only at hst
  split at hst
  · split at hst
    · exact Except.noConfusion hst
    · have hq := Div96By32_limbs (low32 L.lo64) (hi32 L.lo64) L.hi32 R.lo64
      exact divLoop32_inv 64 _ _ _ _ _ _ _ hq.1 hq.2.1 hq.2.2 (by omega)
        (by omega) st hst
  · split at hst
    · exact divLoop64_inv 64 _ _ _ _ _ _ _
        (by simp only [low32, W32]; omega) (by simp only [hi32, W32]; omega)
        (by simp only [W32]; omega) (by omega) (by omega) st hst
    · exact divLoop96_inv 64 _ _ _ _ _ _ _ _ _ _
        (by simp only [low32, W32]; omega) (by simp only [hi32, W32]; omega)
        (by simp only [W32]; omega) (by omega) (by omega) st hst

/-- A `divLimb` quotient fits in 64 bits. -/
theorem divLimb_lt (den rem limb : Nat) : (divLimb den rem limb).1 < W64 := by
  unfold divLimb DivMod64By32
  dsimp only
  simp only [W32, W64]
  omega

/-- `reduceWalk` always rewrites limb 0 with a 64-bit quotient. -/
theorem reduceWalk_b0 (den : Nat) :
    ∀ i rem : Nat, ∀ buf : Buf, ((reduceWalk den i rem buf).1).b0 < W64 := by
  intro i
  induction i with
  | zero =>
    intro rem buf
    simp only [reduceWalk, bufSet]
    exact divLimb_lt _ _ _
  | succ n ih =>
    intro rem buf
    simp only [reduceWalk]
    exact ih _ _

/-- `ReduceScale` always leaves limb 0 below `2^64`. -/
theorem ReduceScale_b0 (buf : Buf) (ihi : Nat) (inew : Int) :
    ((ReduceScale buf ihi inew).1).b0 < W64 := by
  unfold ReduceScale
  cases ihi with
  | zero =>
    dsimp only
    split_ifs <;>
      first
        | (simp only [bufSet]; simp only [W64, DivMod64By32, W32]; omega)
        | exact reduceWalk_b0 _ _ _ _
  | succ n =>
    dsimp only
    split_ifs <;> exact reduceWalk_b0 _ _ _ _

/-- The `ScaleResult` loop only succeeds with a scale in [0, 28] and a
64-bit limb 0. -/
theorem scaleResultLoop_inv (fuel : Nat) :
    ∀ buf : Buf, ∀ ihi sticky rem : Nat, ∀ inew iScale : Int,
      iScale ≤ 28 → ∀ s : Int, ∀ buf' : Buf,
      scaleResultLoop fuel buf ihi sticky rem inew iScale =
        some (ScaleOut.ok s buf') →
      0 ≤ s ∧ s ≤ 28 ∧ buf'.b0 < W64 := by
  induction fuel with
  | zero =>
    intro buf ihi sticky rem inew iScale hs s buf' h
    exact Option.noConfusion h
  | succ n ih =>
    intro buf ihi sticky rem inew iScale hs s buf' h
    simp only [scaleResultLoop] at h
    rcases hR : ReduceScale buf ihi inew with ⟨b2, i2, den, r2, n2⟩
    rw [hR] at h
    dsimp only at h
    have hb2 : b2.b0 < W64 := by
      have := ReduceScale_b0 buf ihi inew
      rw [hR] at this
      exact this
    split at h
    · exact ih _ _ _ _ _ _ hs _ _ h
    · split at h
      · exact ih _ _ _ _ _ _ (by omega) _ _ h
      · simp only [scaleResultRoundGo, scaleResultFinish] at h
        split at h
        · split at h
          · exact ih _ _ _ _ _ _ (by omega) _ _ h
          · split at h
            · injection h with h
              exact ScaleOut.noConfusion h
            · injection h with h
              injection h with h1 h2
              subst h1
              subst h2
              refine ⟨by omega, by omega, ?_⟩
              simp only [add96Buf]
              try dsimp only
              simp only [AddCarry64, W64]
              omega
        · split at h
          · injection h with h
            exact ScaleOut.noConfusion h
          · injection h with h
            injection h with h1 h2
            subst h1
            subst h2
            exact ⟨by omega, by omega, hb2⟩

/-- `ScaleResult` only succeeds with a scale in [0, 28] and a 64-bit
limb 0, for any non-negative entry scale and 64-bit input limb 0. -/
theorem ScaleResult_inv (buf : Buf) (ihi : Nat) (iScale : Int) (s : Int)
    (buf' : Buf) (hb : buf.b0 < W64) (h0 : 0 ≤ iScale)
    (h : ScaleResult buf ihi iScale = some (ScaleOut.ok s buf')) :
    0 ≤ s ∧ s ≤ 28 ∧ buf'.b0 < W64 := by
  unfold ScaleResult scaleResultEnter at h
  dsimp only at h
  split at h
  · split at h
    · injection h with h
      exact ScaleOut.noConfusion h
    · split at h
      · exact scaleResultLoop_inv 64 _ _ _ _ _ _ (by omega) _ _ h
      · next hbp _ hz =>
        exfalso
        omega
  · split at h
    · exact scaleResultLoop_inv 64 _ _ _ _ _ _ (by omega) _ _ h
    · injection h with h
      injection h with h1 h2
      subst h1
      subst h2
      next hbp hz =>
      exact ⟨h0, by omega, hb⟩

/-- `mulScaleFinish` produces an invariant-respecting decimal. -/
theorem mulScaleFinish_inv (L R : DECIMAL) (prod : Buf) (iHi : Nat)
    (iScale : Int) (d : DECIMAL) (hb : prod.b0 < W64) (h0 : 0 ≤ iScale)
    (hsL : L.sign = 0 ∨ L.sign = 128) (hsR : R.sign = 0 ∨ R.sign = 128)
    (h : mulScaleFinish L R prod iHi iScale = .ok d) : resInv d := by
  unfold mulScaleFinish at h
  split at h
  · exact Except.noConfusion h
  · exact Except.noConfusion h
  · next s buf heq =>
    have hI := ScaleResult_inv prod iHi iScale s buf hb h0 heq
    injection h with h
    subst h
    refine ⟨?_, ?_, ?_, ?_⟩
    · try dsimp only
      unfold byteOfInt
      omega
    · simp only [mantissa, low32]
      try dsimp only
      simp only [W32, W64, W96] at hI ⊢
      omega
    · exact xor_sign_mem _ _ hsL hsR
    · unfold flagsWord
      try dsimp only
      omega

/-- Every successful `DecimalMul` result satisfies the invariants. -/
theorem DecimalMul_inv (L R d : DECIMAL) (hL : wfDec L) (hR : wfDec R)
    (h : DecimalMul L R = .ok d) : resInv d := by
  obtain ⟨hLlo, hLhi, hLsc, hLsgn⟩ := hL
  obtain ⟨hRlo, hRhi, hRsc, hRsgn⟩ := hR
  unfold DecimalMul at h
  dsimp only at h
  split at h
  · split at h
    · split at h
      · split at h
        · injection h with h
          subst h
          decide
        · have h10 : (10 : Nat) ≤
              pow10 ((L.scale : Int) + R.scale - 28).toNat := by
            unfold pow10
            calc (10 : Nat) = 10 ^ 1 := (pow_one 10).symm
              _ ≤ 10 ^ ((L.scale : Int) + R.scale - 28).toNat :=
                  Nat.pow_le_pow_right (by norm_num) (by omega)
          have hdd : L.lo64 * R.lo64 % W64 /
                pow10 ((L.scale : Int) + R.scale - 28).toNat ≤
              L.lo64 * R.lo64 % W64 / 10 :=
            Nat.div_le_div_left h10 (by norm_num)
          split at h <;> (injection h with h; subst h) <;>
            refine ⟨by try dsimp only; decide, ?_, ?_, ?_⟩ <;>
            first
              | (try dsimp only
                 exact xor_sign_mem _ _ hLsgn hRsgn)
              | (unfold flagsWord
                 try dsimp only
                 omega)
              | (simp only [mantissa, DivMod64By64, Mul64By64]
                 try dsimp only
                 simp only [W64, W96] at hdd ⊢
                 omega)
      · injection h with h
        subst h
        refine ⟨?_, ?_, ?_, ?_⟩
        · try dsimp only
          unfold byteOfInt
          omega
        · simp only [mantissa, Mul64By64]
          try dsimp only
          simp only [W64, W96]
          omega
        · try dsimp only
          exact xor_sign_mem _ _ hLsgn hRsgn
        · unfold flagsWord
          try dsimp only
          omega
    · refine mulScaleFinish_inv L R _ _ _ _ ?_ (by omega) hLsgn hRsgn h
      simp only [Mul64By64]
      try dsimp only
      simp only [W64]
      omega
  · split at h
    · refine mulScaleFinish_inv L R _ _ _ _ ?_ (by omega) hLsgn hRsgn h
      simp only [Mul64By64]
      try dsimp only
      simp only [W64]
      omega
    · split at h
      · refine mulScaleFinish_inv L R _ _ _ _ ?_ (by omega) hLsgn hRsgn h
        simp only [Mul64By64]
        try dsimp only
        simp only [W64]
        omega
      · split at h
        · refine mulScaleFinish_inv L R _ _ _ _ ?_ (by omega) hLsgn hRsgn h
          simp only [Mul64By64]
          try dsimp only
          simp only [W64]
          omega
        · injection h with h
          subst h
          decide

/-- The aligned add/subtract path produces an invariant-respecting
decimal. -/
theorem addAligned_inv (lLo lHi rLo rHi sign scale bSign : Nat)
    (hs : scale ≤ 28) (hsg : sign = 0 ∨ sign = 128) (d : DECIMAL)
    (h : addAligned lLo lHi rLo rHi sign scale bSign = .ok d) : resInv d := by
  simp only [addAligned, signFlip, SubBorrow64, SubBorrow32, AddCarry64,
    AddCarry32, DivMod64By32, low32, hi32] at h
  repeat' split at h
  all_goals first
    | exact Except.noConfusion h
    | (injection h with h
       subst h
       refine ⟨by try dsimp only; omega, ?_, ?_, ?_⟩
       · simp only [mantissa]
         try dsimp only
         simp only [W32, W64, W96]
         omega
       · try dsimp only
         first
           | exact hsg
           | exact xor_sign_mem _ _ hsg (Or.inr rfl)
       · unfold flagsWord
         try dsimp only
         omega)

/-- The oversized-sum tail of the unequal-scale path produces an
invariant-respecting decimal, provided limb 0 is 64-bit. -/
theorem bigFinish_inv (n0 n1 n2 iHiProd resScale resSign : Nat)
    (hn0 : n0 < W64) (hsc : resScale ≤ 28) (hsg : resSign = 0 ∨ resSign = 128)
    (d : DECIMAL) (h : bigFinish n0 n1 n2 iHiProd resScale resSign = .ok d) :
    resInv d := by
  unfold bigFinish at h
  split at h
  · split at h
    · exact Except.noConfusion h
    · exact Except.noConfusion h
    · next s buf heq =>
      have hI := ScaleResult_inv ⟨n0, n1, n2⟩ _ _ s buf hn0 (by omega) heq
      injection h with h
      subst h
      refine ⟨?_, ?_, ?_, ?_⟩
      · try dsimp only
        unfold byteOfInt
        omega
      · simp only [mantissa, low32]
        try dsimp only
        simp only [W32, W64, W96] at hI ⊢
        omega
      · exact hsg
      · unfold flagsWord
        try dsimp only
        omega
  · injection h with h
    subst h
    refine ⟨hsc, ?_, hsg, ?_⟩
    · simp only [mantissa, low32]
      try dsimp only
      simp only [W32, W64, W96] at hn0 ⊢
      omega
    · unfold flagsWord
      try dsimp only
      omega

/-- `bigAdd` produces an invariant-respecting decimal. -/
theorem bigAdd_inv (n0 n1 n2 iHiProd : Nat) (Q : DECIMAL)
    (resSign resScale bSign : Nat) (hsc : resScale ≤ 28)
    (hsg : resSign = 0 ∨ resSign = 128) (d : DECIMAL)
    (h : bigAdd n0 n1 n2 iHiProd Q resSign resScale bSign = .ok d) :
    resInv d := by
  simp only [bigAdd, signFlip, SubBorrow64, AddCarry64, low32, hi32] at h
  repeat' split at h
  all_goals first
    | exact Except.noConfusion h
    | (refine bigFinish_inv _ _ _ _ _ _ ?_ hsc hsg _ h
       simp only [W64]
       omega)
    | (injection h with h
       subst h
       refine ⟨by try dsimp only; omega, ?_, ?_, ?_⟩
       · simp only [mantissa]
         try dsimp only
         simp only [W32, W64, W96]
         omega
       · try dsimp only
         exact xor_sign_mem _ _ hsg (Or.inr rfl)
       · unfold flagsWord
         try dsimp only
         omega)

/-- The unequal-scale continuation produces an invariant-respecting
decimal. -/
theorem unequalCont_inv (P Q : DECIMAL) (diff resSign resScale bSign : Nat)
    (hQlo : Q.lo64 < W64) (hQhi : Q.hi32 < W32) (hsc : resScale ≤ 28)
    (hsg : resSign = 0 ∨ resSign = 128) (hbs : bSign = 0 ∨ bSign = 128)
    (d : DECIMAL)
    (h : unequalCont P Q diff resSign resScale bSign = .ok d) : resInv d := by
  unfold unequalCont at h
  dsimp only at h
  split at h
  · split at h
    · exact bigAdd_inv _ _ _ _ _ _ _ _ hsc hsg d h
    · split at h
      · exact addAligned_inv _ _ _ _ _ _ _ hsc hsg d h
      · exact bigAdd_inv _ _ _ _ _ _ _ _ hsc hsg d h
  · split at h
    · injection h with h
      subst h
      refine ⟨hsc, ?_, xor_sign_mem _ _ hsg hbs, ?_⟩
      · simp only [mantissa]
        try dsimp only
        simp only [W32, W64, W96] at hQlo hQhi ⊢
        omega
      · unfold flagsWord
        try dsimp only
        omega
    · exact bigAdd_inv _ _ _ _ _ _ _ _ hsc hsg d h

/-- Sign-byte membership of the computed subtract mask. -/
theorem bSign_mem (b x y : Nat) (hb : b = 0 ∨ b = 128) (hx : x = 0 ∨ x = 128)
    (hy : y = 0 ∨ y = 128) :
    (b ^^^ ((y ^^^ x) &&& 128)) = 0 ∨ (b ^^^ ((y ^^^ x) &&& 128)) = 128 := by
  rcases hb with h | h <;> rcases hx with h' | h' <;> rcases hy with h'' | h'' <;>
    subst h <;> subst h' <;> subst h'' <;> decide

/-- Every successful `DecimalAddSub` result satisfies the invariants. -/
theorem DecimalAddSub_inv (L R d : DECIMAL) (b : Nat) (hL : wfDec L)
    (hR : wfDec R) (hb : b = 0 ∨ b = 128)
    (h : DecimalAddSub L R b = .ok d) : resInv d := by
  obtain ⟨hLlo, hLhi, hLsc, hLsgn⟩ := hL
  obtain ⟨hRlo, hRhi, hRsc, hRsgn⟩ := hR
  have hbs := bSign_mem b L.sign R.sign hb hLsgn hRsgn
  unfold DecimalAddSub at h
  dsimp only at h
  split at h
  · exact addAligned_inv _ _ _ _ _ _ _ hLsc hLsgn d h
  · split at h
    · exact unequalCont_inv _ _ _ _ _ _ hLlo hLhi hLsc
        (xor_sign_mem _ _ hLsgn hbs) hbs d h
    · exact unequalCont_inv _ _ _ _ _ _ hRlo hRhi hRsc hLsgn hbs d h

/-- C1: every result value produced without an error by Add or Sub
(`DecimalAddSub` with either sign byte), `DecimalMul`, or `DecimalDiv`
on well-formed operands has a stored scale between 0 and 28, a mantissa
below `2^96`, a plain sign byte, and zero reserved flag bits. -/
theorem C1_result_invariants (L R d : DECIMAL) (b : Nat) (hL : wfDec L)
    (hR : wfDec R) (hb : b = 0 ∨ b = 128) :
    (DecimalAddSub L R b = .ok d → resInv d) ∧
    (DecimalMul L R = .ok d → resInv d) ∧
    (DecimalDiv L R = .ok d → resInv d) :=
  ⟨DecimalAddSub_inv L R d b hL hR hb, DecimalMul_inv L R d hL hR,
    DecimalDiv_inv L R d hL hR⟩

/-- Witness for C1 at 1 + 2 = 3. -/
theorem C1_witness : resInv ⟨3, 0, 0, 0⟩ :=
  (C1_result_invariants ⟨1, 0, 0, 0⟩ ⟨2, 0, 0, 0⟩ ⟨3, 0, 0, 0⟩ 0
    (by decide) (by decide) (by decide)).1 (by decide)
